import Mathlib

/-!
# Pokemon Memorability Ranker: the rating engine of `app.js`

A shallow embedding of the rating engine of the class `PokemonRanker`
(`calculateELO`, `getRandomPair`, `selectPokemon`, `submitNameTest`,
`getRandomGroup`) together with the properties its specification states.

Modelling conventions.

* The array `this.pokemon` holds JavaScript objects that are mutated in place
  and are shared with `currentPair` and `currentNameTestGroup`.  The array is
  the heap: a record is a `Pokemon` value, a reference to a record is its
  position in `this.pokemon` (`Ref`).  The array itself is never reordered
  (every sort in the program works on a copy `[...this.pokemon]`), so the
  position of an object is stable.  Two references alias exactly when they
  are equal.
* A reference outside the array plays the role of `undefined`; reading a
  property of it raises a `TypeError`.
* JavaScript numbers are read as exact numbers.  `calculateELO` is generic in
  an ordered field `F` with a floor function and takes the library function
  `Math.pow` as a parameter; the sampler works over `ℚ`.
* `Math.random()` is a stream `rnd : Nat → ℚ`: its `k`-th call returns `rnd k`.
* A method that mutates the object returns an `Outcome`: the state of the
  object after the call and the exception that reached the caller, if any.
  Writes made before an exception is raised stay in the state.
* `saveData` (which writes a copy of the state to `localStorage`) and the
  writes to the page do not touch the engine state and are left out; the page
  is taken to hold the elements the code looks up.  The reads of record
  properties made while drawing are kept, since they raise on `undefined`.
-/

/-- A reference to a record: its position in the array `this.pokemon`. -/
abbrev Ref := Nat

/-- The record built by `fetchPokemon` (lines 82-91).  The field `matches` of the
source is spelled `matches_` (`matches` is a reserved word here). -/
structure Pokemon where
  id : Nat
  name : String
  number : Nat
  sprite : String
  rating : Int
  wins : Nat
  losses : Nat
  matches_ : Nat
deriving DecidableEq, Repr

/-- The object `{ left, right }` held in `currentPair`; `none` is `undefined`
(or the initial `null`). -/
structure CurrentPair where
  left : Option Ref
  right : Option Ref
deriving DecidableEq, Repr

/-- The engine fields of the class `PokemonRanker` (constructor, lines 10-17). -/
structure PokemonRanker where
  pokemon : List Pokemon
  currentPair : CurrentPair
  currentNameTestGroup : List Ref
  selectedNameTestIds : Finset Nat
  totalComparisons : Nat

/-- The exceptions the engine code can raise: a property read on `undefined`,
or a call of something that is not a function. -/
inductive JsError where
  | TypeError
deriving DecidableEq, Repr

namespace PokemonRanker

/-- `const K_FACTOR = 32` (line 6). -/
def K_FACTOR : Nat := 32

/-- `const INITIAL_RATING = 1500` (line 7). -/
def INITIAL_RATING : Int := 1500

/-- The record `fetchPokemon` returns for the catalogue entry `(id, name, sprite)`. -/
def fetchPokemon (id : Nat) (name sprite : String) : Pokemon :=
  { id := id, name := name, number := id, sprite := sprite,
    rating := INITIAL_RATING, wins := 0, losses := 0, matches_ := 0 }

section Rating

variable {F : Type} [LinearOrderedField F] [FloorRing F]

/-- `Math.round`: the nearest integer, a tie going to the larger one. -/
def Math_round (x : F) : Int := ⌊x + 1 / 2⌋

/-- `1 / (1 + Math.pow(10, (other - self) / 400))` (lines 121 and 122). -/
def expectedScore (pow : F → F → F) (other self : Int) : F :=
  1 / (1 + pow 10 (((other : F) - (self : F)) / 400))

/-- `calculateELO(winner, loser)` (lines 120-131) on the heap `pokemon`.
Both ratings are read first (a `TypeError`, here `none`, when a reference is
`undefined`, before anything is written); then the six assignments run in
program order, each one reading the current record behind its reference. -/
def calculateELO (pow : F → F → F) (pokemon : List Pokemon) (winner loser : Ref) :
    Option (List Pokemon) :=
  match pokemon[winner]?, pokemon[loser]? with
  | some w, some l =>
    let expectedWinner : F := expectedScore pow l.rating w.rating
    let expectedLoser : F := expectedScore pow w.rating l.rating
    let h1 := pokemon.modify
      (fun p => { p with rating := Math_round ((p.rating : F) + (K_FACTOR : F) * (1 - expectedWinner)) })
      winner
    let h2 := h1.modify
      (fun p => { p with rating := Math_round ((p.rating : F) + (K_FACTOR : F) * (0 - expectedLoser)) })
      loser
    let h3 := h2.modify (fun p => { p with wins := p.wins + 1 }) winner
    let h4 := h3.modify (fun p => { p with losses := p.losses + 1 }) loser
    let h5 := h4.modify (fun p => { p with matches_ := p.matches_ + 1 }) winner
    some (h5.modify (fun p => { p with matches_ := p.matches_ + 1 }) loser)
  | _, _ => none

end Rating

section Sampling

/-- `Array.prototype.sort(comparefn)` on a copy of an array, as a stable insertion
sort: `orderedInsert` puts `a`, which stood before every element of the sorted
list, in front of the first `b` with `comparefn(a, b) <= 0`.  The comparator may
be impure: it receives the number `k` of comparator calls made so far, and the
updated number is returned with the list. -/
def orderedInsert {α : Type} (comparefn : Nat → α → α → ℚ) (a : α) :
    List α → Nat → List α × Nat
  | [], k => ([a], k)
  | b :: l, k =>
    if comparefn k a b ≤ 0 then (a :: b :: l, k + 1)
    else ((b :: (orderedInsert comparefn a l (k + 1)).1), (orderedInsert comparefn a l (k + 1)).2)

/-- The sort itself: the tail is sorted first, then the head is inserted. -/
def arraySort {α : Type} (comparefn : Nat → α → α → ℚ) : List α → Nat → List α × Nat
  | [], k => ([], k)
  | a :: l, k => orderedInsert comparefn a (arraySort comparefn l k).1 (arraySort comparefn l k).2

/-- The array `[...this.pokemon]` as an array of references. -/
def allRefs (pokemon : List Pokemon) : List Ref := List.range pokemon.length

/-- `[...this.pokemon].sort(() => Math.random() - 0.5)` (lines 135 and 369). -/
def shuffled (rnd : Nat → ℚ) (pokemon : List Pokemon) : List Ref :=
  (arraySort (fun k _ _ => rnd k - 1 / 2) (allRefs pokemon) 0).1

/-- `getRandomPair()` (lines 134-140). -/
def getRandomPair (rnd : Nat → ℚ) (s : PokemonRanker) : CurrentPair :=
  { left := (shuffled rnd s.pokemon)[0]?, right := (shuffled rnd s.pokemon)[1]? }

/-- `Math.min(this.totalComparisons / 500, 1)` (lines 365 and 428). -/
def biasFactor (totalComparisons : Nat) : ℚ := min ((totalComparisons : ℚ) / 500) 1

/-- `[...this.pokemon].sort((a, b) => a.rating - b.rating)` (line 374).  The copy
is only read, so its elements are given as the records behind the references. -/
def sortedByRating (pokemon : List Pokemon) : List Pokemon :=
  (arraySort (fun _ a b => ((a.rating - b.rating : Int) : ℚ)) pokemon 0).1

/-- `sorted[Math.floor(sorted.length / 2)].rating` (line 375); `none` is the
`TypeError` of reading `rating` of `undefined` (empty population). -/
def medianRating (pokemon : List Pokemon) : Option Int :=
  ((sortedByRating pokemon)[(sortedByRating pokemon).length / 2]?).map Pokemon.rating

/-- The weight computed in the callback of `this.pokemon.map` (lines 378-383) for
a record of rating `rating`. -/
def weight (medianRating : Int) (biasFactor : ℚ) (rating : Int) : ℚ :=
  let ratingDiff : ℚ := ((medianRating - rating : Int) : ℚ)
  let baseWeight : ℚ := 1
  let biasWeight : ℚ := max (1 / 10) (1 + (ratingDiff / 200) * biasFactor)
  baseWeight + biasWeight * biasFactor * 3

/-- An entry `{ pokemon, weight }` of `weightedPool`. -/
structure WeightedEntry where
  pokemon : Ref
  weight : ℚ
deriving DecidableEq, Repr

/-- `weightedPool` (lines 377-385). -/
def weightedPool (medianRating : Int) (biasFactor : ℚ) (pokemon : List Pokemon) :
    List WeightedEntry :=
  pokemon.enum.map (fun ip => { pokemon := ip.1, weight := weight medianRating biasFactor ip.2.rating })

/-- A method `weightedRandomSelect(pool)`: from the number `i` of the draw and
the remaining pool to the chosen reference (`none` for `undefined`). -/
abbrev Selector := Nat → List WeightedEntry → Option Ref

/-- The loop of lines 390-395, with `todo = count - i` iterations left and the
value `method` found under `this.weightedRandomSelect` (`none` when the object
has no such property, in which case the call raises a `TypeError`). -/
def drawLoop (method : Option Selector) (pokemon : List Pokemon) :
    Nat → Nat → List WeightedEntry → List Ref → Except JsError (List Ref)
  | 0, _, _, selected => .ok selected
  | todo + 1, i, remainingPool, selected =>
    if remainingPool.length > 0 then
      match method with
      | none => .error .TypeError
      | some weightedRandomSelect =>
        match weightedRandomSelect i remainingPool with
        | none => .error .TypeError
        | some chosen =>
          match pokemon[chosen]? with
          | none => .error .TypeError
          | some p =>
            let index := remainingPool.findIdx?
              (fun item => (pokemon[item.pokemon]?).map Pokemon.id == some p.id)
            drawLoop method pokemon todo (i + 1)
              (match index with
               | some j => remainingPool.eraseIdx j
               | none => remainingPool)
              (selected ++ [chosen])
    else .ok selected

/-- `getRandomGroup(count)` (lines 363-398) for an object whose property
`weightedRandomSelect` holds `method`. -/
def getRandomGroupWith (method : Option Selector) (rnd : Nat → ℚ) (s : PokemonRanker)
    (count : Nat) : Except JsError (List Ref) :=
  if biasFactor s.totalComparisons < 1 / 5 then
    .ok ((shuffled rnd s.pokemon).take count)
  else
    match medianRating s.pokemon with
    | none => .error .TypeError
    | some m =>
      drawLoop method s.pokemon count 0
        (weightedPool m (biasFactor s.totalComparisons) s.pokemon) []

/-- The value of `this.weightedRandomSelect`.  The class body (lines 9-515)
defines no method of that name, the class extends nothing and the constructor
assigns no such field: the lookup gives `undefined`. -/
def weightedRandomSelect : Option Selector := none

/-- `getRandomGroup(count)` (lines 363-398) of the class as written. -/
def getRandomGroup (rnd : Nat → ℚ) (s : PokemonRanker) (count : Nat) :
    Except JsError (List Ref) :=
  getRandomGroupWith weightedRandomSelect rnd s count

end Sampling
/-- What a call of a method leaves behind: the state of the object after the
call, and the exception that reached the caller, if any.  The records and the
fields are mutated in place, so what was written before the exception stays. -/
structure Outcome where
  state : PokemonRanker
  error : Option JsError

section Session

variable {F : Type} [LinearOrderedField F] [FloorRing F]

/-- `showBattle()` (lines 197-216).  Line 198 stores a fresh pair; lines 204-208
read `sprite`, `name`, `number`, `wins` and `losses` of `currentPair.left`, lines
211-215 the same of `currentPair.right`: a `TypeError` when one is `undefined`. -/
def showBattle (rnd : Nat → ℚ) (s : PokemonRanker) : Outcome :=
  match (getRandomPair rnd s).left.bind (fun r => s.pokemon[r]?),
      (getRandomPair rnd s).right.bind (fun r => s.pokemon[r]?) with
  | some _, some _ => { state := { s with currentPair := getRandomPair rnd s }, error := none }
  | _, _ => { state := { s with currentPair := getRandomPair rnd s }, error := some .TypeError }

/-- `selectPokemon(winner, loser)` (lines 143-150): the rating update (a
`TypeError` before any write when a reference is `undefined`), the counter,
`saveData`, and `showBattle()`. -/
def selectPokemon (pow : F → F → F) (rnd : Nat → ℚ) (s : PokemonRanker) (winner loser : Ref) :
    Outcome :=
  match calculateELO pow s.pokemon winner loser with
  | none => { state := s, error := some .TypeError }
  | some h => showBattle rnd { s with pokemon := h, totalComparisons := s.totalComparisons + 1 }

/-- The array `this.currentNameTestGroup.filter(p => !this.selectedNameTestIds.has(p.id))`
(line 348); `none` when a member of the group is `undefined`. -/
def unselectedOf (selected : Finset Nat) (pokemon : List Pokemon) :
    List Ref → Option (List Ref)
  | [] => some []
  | r :: rs =>
    match pokemon[r]?, unselectedOf selected pokemon rs with
    | some p, some rest => some (if p.id ∈ selected then rest else r :: rest)
    | _, _ => none

/-- `unselected.forEach(loser => this.calculateELO(pokemon, loser))` (lines 349-351):
the records after the loop, and the exception that stopped it, if any. -/
def forEachLoser (pow : F → F → F) (winner : Ref) :
    List Ref → List Pokemon → List Pokemon × Option JsError
  | [], h => (h, none)
  | loser :: rest, h =>
    match calculateELO pow h winner loser with
    | some h1 => forEachLoser pow winner rest h1
    | none => (h, some .TypeError)

/-- The outer `this.currentNameTestGroup.forEach(pokemon => ...)` (lines 344-353),
run over the remaining members `todo` of the group `group`: the records after
the loop, and the exception that stopped it, if any. -/
def forEachMember (pow : F → F → F) (selected : Finset Nat) (group : List Ref) :
    List Ref → List Pokemon → List Pokemon × Option JsError
  | [], h => (h, none)
  | pokemon :: todo, h =>
    match h[pokemon]? with
    | none => (h, some .TypeError)
    | some p =>
      if p.id ∈ selected then
        match unselectedOf selected h group with
        | none => (h, some .TypeError)
        | some unselected =>
          match forEachLoser pow pokemon unselected h with
          | (h1, none) => forEachMember pow selected group todo h1
          | (h1, some e) => (h1, some e)
      else forEachMember pow selected group todo h

/-- `showNameTest()` (lines 303-340).  Line 304 stores `getRandomGroup(5)` (nothing
is stored when that call raises), line 305 clears the selection, and the loop of
lines 310-339 reads `id`, `sprite` and `number` of every member of the group. -/
def showNameTest (rnd : Nat → ℚ) (s : PokemonRanker) : Outcome :=
  match getRandomGroup rnd s 5 with
  | .error e => { state := s, error := some e }
  | .ok group =>
    { state := { s with currentNameTestGroup := group, selectedNameTestIds := ∅ },
      error := if group.all (fun r => (s.pokemon[r]?).isSome) then none else some .TypeError }

/-- `submitNameTest()` (lines 342-361): the rating updates of the round, the
counter, `saveData`, and `showNameTest()`.  An exception in the loop leaves the
counter as it was. -/
def submitNameTest (pow : F → F → F) (rnd : Nat → ℚ) (s : PokemonRanker) : Outcome :=
  match forEachMember pow s.selectedNameTestIds s.currentNameTestGroup
      s.currentNameTestGroup s.pokemon with
  | (h, some e) => { state := { s with pokemon := h }, error := some e }
  | (h, none) =>
    showNameTest rnd
      { s with pokemon := h,
               totalComparisons := s.totalComparisons + s.currentNameTestGroup.length }

end Session

/-! ## Vocabulary of the statements -/

/-- Whether the record behind `r` has its id in the selection. -/
def isSelected (selected : Finset Nat) (pokemon : List Pokemon) (r : Ref) : Bool :=
  match pokemon[r]? with
  | some p => decide (p.id ∈ selected)
  | none => false

/-- The members of the group whose id is selected. -/
def selectedRefs (selected : Finset Nat) (pokemon : List Pokemon) (group : List Ref) :
    List Ref :=
  group.filter (fun r => isSelected selected pokemon r)

/-- The members of the group whose id is not selected. -/
def unselectedRefs (selected : Finset Nat) (pokemon : List Pokemon) (group : List Ref) :
    List Ref :=
  group.filter (fun r => !isSelected selected pokemon r)

/-- Invariant I1 of a population: `matches == wins + losses` for every record. -/
def I1 (pokemon : List Pokemon) : Prop :=
  ∀ p ∈ pokemon, p.matches_ = p.wins + p.losses

/-- The ids of the population are pairwise distinct. -/
def DistinctIds (pokemon : List Pokemon) : Prop :=
  (pokemon.map Pokemon.id).Nodup

/-- `Gain dw dl h h1`: the heap `h1` has the records of `h`, the record behind
`k` having won `dw k` and lost `dl k` more matches, and being the same record when
both numbers are zero. -/
def Gain (dw dl : Ref → Nat) (h h1 : List Pokemon) : Prop :=
  h1.length = h.length ∧
  ∀ k p, h[k]? = some p → ∃ q, h1[k]? = some q ∧
    q.id = p.id ∧ q.name = p.name ∧ q.number = p.number ∧ q.sprite = p.sprite ∧
    q.wins = p.wins + dw k ∧ q.losses = p.losses + dl k ∧
    q.matches_ = p.matches_ + dw k + dl k ∧ (dw k = 0 → dl k = 0 → q = p)

/-- The number of pairs of `edges` whose winner is `k`. -/
def winsIn (edges : List (Ref × Ref)) (k : Ref) : Nat := edges.countP (fun e => e.1 == k)

/-- The number of pairs of `edges` whose loser is `k`. -/
def lossesIn (edges : List (Ref × Ref)) (k : Ref) : Nat := edges.countP (fun e => e.2 == k)

/-- The rating updates `calculateELO(w, l)` for the pairs `(w, l)` of `edges`, one
after the other: the reading of "apply the updater once per edge". -/
def applyEdges {F : Type} [LinearOrderedField F] [FloorRing F] (pow : F → F → F) :
    List (Ref × Ref) → List Pokemon → Option (List Pokemon)
  | [], h => some h
  | e :: rest, h =>
    match calculateELO pow h e.1 e.2 with
    | some h1 => applyEdges pow rest h1
    | none => none

/-! ## Concrete inputs -/

/-- A stand-in for `Math.pow` over `ℚ` on concrete inputs: `b ^ ⌊e⌋`, which is
the exact power whenever the exponent is an integer. -/
def powFloor : ℚ → ℚ → ℚ := fun b e => b ^ ⌊e⌋

/-- Three freshly fetched records. -/
def trio : List Pokemon :=
  [fetchPokemon 1 "bulbasaur" "", fetchPokemon 4 "charmander" "", fetchPokemon 7 "squirtle" ""]

/-- Three records with the ratings 1400, 1500 and 3000. -/
def ratedTrio : List Pokemon :=
  [{ fetchPokemon 1 "bulbasaur" "" with rating := 1400 }, fetchPokemon 4 "charmander" "",
    { fetchPokemon 7 "squirtle" "" with rating := 3000 }]

/-- Five freshly fetched records. -/
def quintet : List Pokemon :=
  [fetchPokemon 1 "bulbasaur" "", fetchPokemon 2 "ivysaur" "", fetchPokemon 3 "venusaur" "",
    fetchPokemon 4 "charmander" "", fetchPokemon 5 "charmeleon" ""]

/-- A session over `quintet` after 100 comparisons, nothing pending. -/
def quintetSession : PokemonRanker :=
  { pokemon := quintet, currentPair := { left := none, right := none },
    currentNameTestGroup := [], selectedNameTestIds := ∅, totalComparisons := 100 }

/-- A session whose population is a single fresh record. -/
def soloSession : PokemonRanker :=
  { pokemon := [fetchPokemon 1 "bulbasaur" ""], currentPair := { left := none, right := none },
    currentNameTestGroup := [], selectedNameTestIds := ∅, totalComparisons := 0 }

/-- A session over `trio` with the whole population pending as a group, the
record with id 1 selected, after `total` comparisons. -/
def trioSession (total : Nat) : PokemonRanker :=
  { pokemon := trio, currentPair := { left := none, right := none },
    currentNameTestGroup := [0, 1, 2], selectedNameTestIds := {1},
    totalComparisons := total }

end PokemonRanker

/-! ## Lemmas on the heap and on `calculateELO` -/

namespace PokemonRanker

theorem gain_refl (h : List Pokemon) : Gain (fun _ => 0) (fun _ => 0) h h :=
  ⟨rfl, fun _ p hp => ⟨p, hp, rfl, rfl, rfl, rfl, rfl, rfl, rfl, fun _ _ => rfl⟩⟩

theorem gain_trans {dw dl dw1 dl1 : Ref → Nat} {h h1 h2 : List Pokemon}
    (g : Gain dw dl h h1) (g1 : Gain dw1 dl1 h1 h2) :
    Gain (fun k => dw k + dw1 k) (fun k => dl k + dl1 k) h h2 := by
  refine ⟨g1.1.trans g.1, fun k p hp => ?_⟩
  obtain ⟨q, hq, e1, e2, e3, e4, e5, e6, e7, e8⟩ := g.2 k p hp
  obtain ⟨q1, hq1, f1, f2, f3, f4, f5, f6, f7, f8⟩ := g1.2 k q hq
  refine ⟨q1, hq1, f1.trans e1, f2.trans e2, f3.trans e3, f4.trans e4, ?_, ?_, ?_, ?_⟩
  · show q1.wins = p.wins + (dw k + dw1 k)
    omega
  · show q1.losses = p.losses + (dl k + dl1 k)
    omega
  · show q1.matches_ = p.matches_ + (dw k + dw1 k) + (dl k + dl1 k)
    omega
  · intro z z1
    have z2 : dw k + dw1 k = 0 := z
    have z3 : dl k + dl1 k = 0 := z1
    rw [f8 (by omega) (by omega), e8 (by omega) (by omega)]

theorem gain_congr {dw dl dw1 dl1 : Ref → Nat} {h h1 : List Pokemon}
    (g : Gain dw dl h h1) (ew : ∀ k, dw k = dw1 k) (el : ∀ k, dl k = dl1 k) :
    Gain dw1 dl1 h h1 := by
  have e1 : dw = dw1 := funext ew
  have e2 : dl = dl1 := funext el
  rw [← e1, ← e2]; exact g

theorem gain_getElem?_none {dw dl : Ref → Nat} {h h1 : List Pokemon}
    (g : Gain dw dl h h1) {k : Ref} (hk : h[k]? = none) : h1[k]? = none := by
  rw [List.getElem?_eq_none_iff] at hk ⊢
  rw [g.1]; exact hk

theorem gain_isSelected {dw dl : Ref → Nat} {h h1 : List Pokemon}
    (g : Gain dw dl h h1) (selected : Finset Nat) (r : Ref) :
    isSelected selected h1 r = isSelected selected h r := by
  unfold isSelected
  cases hr : h[r]? with
  | none => rw [gain_getElem?_none g hr]
  | some p =>
    obtain ⟨q, hq, e1, _⟩ := g.2 r p hr
    rw [hq]; simp only [e1]

theorem gain_I1 {dw dl : Ref → Nat} {h h1 : List Pokemon} (g : Gain dw dl h h1)
    (hI : I1 h) : I1 h1 := by
  intro q hq
  obtain ⟨k, hk, rfl⟩ := List.getElem_of_mem hq
  have hk1 : k < h.length := g.1 ▸ hk
  obtain ⟨q1, hq1, _, _, _, _, e5, e6, e7, _⟩ := g.2 k h[k] (List.getElem?_eq_getElem hk1)
  rw [List.getElem?_eq_getElem hk] at hq1
  cases hq1
  have := hI h[k] (List.getElem_mem hk1)
  omega

theorem gain_eq_of_zero {dw dl : Ref → Nat} {h h1 : List Pokemon} (g : Gain dw dl h h1)
    (zw : ∀ k, dw k = 0) (zl : ∀ k, dl k = 0) : h1 = h := by
  apply List.ext_getElem? 
  intro k
  cases hk : h[k]? with
  | none => exact gain_getElem?_none g hk
  | some p =>
    obtain ⟨q, hq, _, _, _, _, _, _, _, e⟩ := g.2 k p hk
    rw [hq, e (zw k) (zl k)]

theorem product_cons_eq (x : Ref) (xs ys : List Ref) :
    (x :: xs).product ys = ys.map (Prod.mk x) ++ xs.product ys :=
  List.product_cons x xs ys

theorem winsIn_product (xs ys : List Ref) (k : Ref) :
    winsIn (xs.product ys) k = xs.count k * ys.length := by
  induction xs with
  | nil => simp [winsIn]
  | cons x xs ih =>
    unfold winsIn at ih ⊢
    rw [product_cons_eq, List.countP_append, ih, List.countP_map, List.count_cons]
    by_cases hx : x = k
    · subst hx
      simp [Function.comp_def, Nat.add_mul, Nat.add_comm]
    · simp [Function.comp_def, hx]

theorem lossesIn_product (xs ys : List Ref) (k : Ref) :
    lossesIn (xs.product ys) k = xs.length * ys.count k := by
  induction xs with
  | nil => simp [lossesIn]
  | cons x xs ih =>
    unfold lossesIn at ih ⊢
    rw [product_cons_eq, List.countP_append, ih, List.countP_map, List.length_cons,
      Nat.add_mul, Nat.one_mul, Nat.add_comm]
    congr 1

theorem unselectedOf_eq (selected : Finset Nat) (h : List Pokemon) (group : List Ref)
    (hv : ∀ r ∈ group, r < h.length) :
    unselectedOf selected h group = some (unselectedRefs selected h group) := by
  induction group with
  | nil => rfl
  | cons r rs ih =>
    have hr : r < h.length := hv r (List.mem_cons_self _ _)
    have ih1 := ih (fun x hx => hv x (List.mem_cons_of_mem _ hx))
    simp only [unselectedOf, List.getElem?_eq_getElem hr, ih1, unselectedRefs, List.filter_cons,
      isSelected]
    by_cases hs : h[r].id ∈ selected <;> simp [hs]

theorem expectedScore_self {F : Type} [LinearOrderedField F] (pow : F → F → F)
    (h0 : pow 10 0 = 1) (r : Int) : expectedScore pow r r = 1 / 2 := by
  unfold expectedScore
  rw [sub_self, zero_div, h0]
  norm_num

section RatingLemmas

variable {F : Type} [LinearOrderedField F] [FloorRing F]

theorem Math_round_int_add (z : Int) (x : F) (h1 : -(1 / 2) ≤ x) (h2 : x < 1 / 2) :
    Math_round ((z : F) + x) = z := by
  unfold Math_round
  rw [Int.floor_eq_iff]
  constructor <;> linarith

theorem calculateELO_isSome (pow : F → F → F) (h : List Pokemon) (w l : Ref)
    (h1 : List Pokemon) (e : calculateELO pow h w l = some h1) :
    w < h.length ∧ l < h.length := by
  unfold calculateELO at e
  cases hw : h[w]? with
  | none => simp [hw] at e
  | some pw =>
    cases hl : h[l]? with
    | none => simp [hw, hl] at e
    | some pl =>
      exact ⟨(List.getElem?_eq_some_iff.1 hw).1, (List.getElem?_eq_some_iff.1 hl).1⟩

theorem calculateELO_gain (pow : F → F → F) (h : List Pokemon) (w l : Ref)
    (hw : w < h.length) (hl : l < h.length) :
    ∃ h1, calculateELO pow h w l = some h1 ∧
      Gain (fun k => if k = w then 1 else 0) (fun k => if k = l then 1 else 0) h h1 := by
  refine ⟨_, by simp only [calculateELO, List.getElem?_eq_getElem hw,
    List.getElem?_eq_getElem hl]; rfl, by simp, fun k p hp => ?_⟩
  rcases eq_or_ne k w with hkw | hkw <;> rcases eq_or_ne k l with hkl | hkl
  · subst hkw; subst hkl
    simp [List.getElem?_modify, hp]
  · subst hkw
    simp [List.getElem?_modify, hp, hkl, Ne.symm hkl]
  · subst hkl
    simp [List.getElem?_modify, hp, hkw, Ne.symm hkw]
  · simp [List.getElem?_modify, hp, hkw, hkl, Ne.symm hkw, Ne.symm hkl]

theorem calculateELO_of_ne (pow : F → F → F) (h : List Pokemon) (a b : Ref) (pa pb : Pokemon)
    (ha : h[a]? = some pa) (hb : h[b]? = some pb) (hab : a ≠ b) :
    ∃ h1, calculateELO pow h a b = some h1 ∧ h1.length = h.length ∧
      h1[a]? = some { pa with
        rating := Math_round ((pa.rating : F) +
          (K_FACTOR : F) * (1 - expectedScore pow pb.rating pa.rating))
        wins := pa.wins + 1
        matches_ := pa.matches_ + 1 } ∧
      h1[b]? = some { pb with
        rating := Math_round ((pb.rating : F) +
          (K_FACTOR : F) * (0 - expectedScore pow pa.rating pb.rating))
        losses := pb.losses + 1
        matches_ := pb.matches_ + 1 } ∧
      ∀ k, k ≠ a → k ≠ b → h1[k]? = h[k]? := by
  refine ⟨_, by simp only [calculateELO, ha, hb]; rfl, by simp, ?_, ?_, ?_⟩
  · simp [List.getElem?_modify, ha, hab, hab.symm]
  · simp [List.getElem?_modify, hb, hab, hab.symm]
  · intro k hka hkb
    simp [List.getElem?_modify, Ne.symm hka, Ne.symm hkb]

theorem calculateELO_self (pow : F → F → F) (h : List Pokemon) (x : Ref) (px : Pokemon)
    (hx : h[x]? = some px) :
    ∃ h1, calculateELO pow h x x = some h1 ∧ h1.length = h.length ∧
      h1[x]? = some { px with
        rating := Math_round
          (((Math_round ((px.rating : F) +
              (K_FACTOR : F) * (1 - expectedScore pow px.rating px.rating)) : Int) : F) +
            (K_FACTOR : F) * (0 - expectedScore pow px.rating px.rating))
        wins := px.wins + 1
        losses := px.losses + 1
        matches_ := px.matches_ + 1 + 1 } ∧
      ∀ k, k ≠ x → h1[k]? = h[k]? := by
  refine ⟨_, by simp only [calculateELO, hx]; rfl, by simp, ?_, ?_⟩
  · simp [List.getElem?_modify, hx]
  · intro k hk
    simp [List.getElem?_modify, Ne.symm hk]

theorem applyEdges_append (pow : F → F → F) (e1 e2 : List (Ref × Ref)) (h h1 : List Pokemon)
    (a : applyEdges pow e1 h = some h1) :
    applyEdges pow (e1 ++ e2) h = applyEdges pow e2 h1 := by
  induction e1 generalizing h with
  | nil => simp only [applyEdges, Option.some.injEq] at a; subst a; rfl
  | cons e rest ih =>
    simp only [List.cons_append, applyEdges] at a ⊢
    cases c : calculateELO pow h e.1 e.2 with
    | none => simp [c] at a
    | some h2 =>
      simp only [c] at a ⊢
      exact ih h2 a

theorem applyEdges_gain (pow : F → F → F) (edges : List (Ref × Ref)) (h : List Pokemon)
    (hv : ∀ e ∈ edges, e.1 < h.length ∧ e.2 < h.length) :
    ∃ h1, applyEdges pow edges h = some h1 ∧ Gain (winsIn edges) (lossesIn edges) h h1 := by
  induction edges generalizing h with
  | nil => exact ⟨h, rfl, gain_congr (gain_refl h) (fun _ => rfl) (fun _ => rfl)⟩
  | cons e rest ih =>
    obtain ⟨h1, c, g⟩ := calculateELO_gain pow h e.1 e.2 (hv e (List.mem_cons_self _ _)).1
      (hv e (List.mem_cons_self _ _)).2
    obtain ⟨h2, c2, g2⟩ := ih h1 (fun e1 he1 => by
      rw [g.1]; exact hv e1 (List.mem_cons_of_mem _ he1))
    refine ⟨h2, by simp only [applyEdges, c, c2], gain_congr (gain_trans g g2) (fun k => ?_)
      (fun k => ?_)⟩
    · by_cases hk : e.1 = k
      · simp [winsIn, List.countP_cons, hk, Nat.add_comm]
      · simp [winsIn, List.countP_cons, hk, Ne.symm hk]
    · by_cases hk : e.2 = k
      · simp [lossesIn, List.countP_cons, hk, Nat.add_comm]
      · simp [lossesIn, List.countP_cons, hk, Ne.symm hk]

theorem applyEdges_isSome (pow : F → F → F) (edges : List (Ref × Ref)) (h h1 : List Pokemon)
    (a : applyEdges pow edges h = some h1) :
    ∀ e ∈ edges, e.1 < h.length ∧ e.2 < h.length := by
  induction edges generalizing h with
  | nil => intro e he; cases he
  | cons e rest ih =>
    simp only [applyEdges] at a
    cases c : calculateELO pow h e.1 e.2 with
    | none => simp [c] at a
    | some h2 =>
      simp only [c] at a
      have v := calculateELO_isSome pow h e.1 e.2 h2 c
      obtain ⟨h3, c3, g⟩ := calculateELO_gain pow h e.1 e.2 v.1 v.2
      have e23 : h2 = h3 := by rw [c] at c3; exact Option.some.inj c3
      intro e1 he1
      rcases List.mem_cons.1 he1 with rfl | hm
      · exact v
      · have := ih h2 a e1 hm
        rw [e23, g.1] at this
        exact this

end RatingLemmas

end PokemonRanker

namespace PokemonRanker

section RoundLemmas

variable {F : Type} [LinearOrderedField F] [FloorRing F]

theorem applyEdges_some_gain (pow : F → F → F) (edges : List (Ref × Ref)) (h h1 : List Pokemon)
    (a : applyEdges pow edges h = some h1) : Gain (winsIn edges) (lossesIn edges) h h1 := by
  obtain ⟨h2, c, g⟩ := applyEdges_gain pow edges h (applyEdges_isSome pow edges h h1 a)
  rw [a] at c
  cases c
  exact g

end RoundLemmas

end PokemonRanker

/-! ## The rating updater -/

namespace PokemonRanker

section UpdaterTheorems

variable {F : Type} [LinearOrderedField F] [FloorRing F]

/-- C2. For two distinct records `a` and `b` of the population, one
`calculateELO(a, b)` runs to completion, adds exactly 1 to `a.wins`, `a.matches`,
`b.losses` and `b.matches`, leaves `a.losses` and `b.wins` as they were, leaves
the id and the descriptive fields of both as they were, keeps the size of the
population and changes no other record. -/
theorem calculateELO_effect (pow : F → F → F) (h : List Pokemon) (a b : Ref)
    (pa pb : Pokemon) (ha : h[a]? = some pa) (hb : h[b]? = some pb) (hab : a ≠ b) :
    ∃ h1 qa qb, calculateELO pow h a b = some h1 ∧ h1.length = h.length ∧
      h1[a]? = some qa ∧ h1[b]? = some qb ∧
      qa.wins = pa.wins + 1 ∧ qa.matches_ = pa.matches_ + 1 ∧ qa.losses = pa.losses ∧
      qb.losses = pb.losses + 1 ∧ qb.matches_ = pb.matches_ + 1 ∧ qb.wins = pb.wins ∧
      qa.id = pa.id ∧ qa.name = pa.name ∧ qa.number = pa.number ∧ qa.sprite = pa.sprite ∧
      qb.id = pb.id ∧ qb.name = pb.name ∧ qb.number = pb.number ∧ qb.sprite = pb.sprite ∧
      ∀ k, k ≠ a → k ≠ b → h1[k]? = h[k]? := by
  obtain ⟨h1, c, len, ea, eb, rest⟩ := calculateELO_of_ne pow h a b pa pb ha hb hab
  exact ⟨h1, _, _, c, len, ea, eb, rfl, rfl, rfl, rfl, rfl, rfl, rfl, rfl, rfl, rfl, rfl, rfl,
    rfl, rfl, rest⟩

/-- C3. Zero-sum update under equal priors: when two distinct records `a` and `b`
both have rating `r`, `calculateELO(a, b)` leaves `a` with rating `r + 16` and `b`
with rating `r - 16`, so the gain of `a` is the loss of `b`.  `Math.pow(10, 0)` is
`1`, as ECMAScript fixes it. -/
theorem calculateELO_equal_ratings (pow : F → F → F) (h0 : pow 10 0 = 1) (h : List Pokemon)
    (a b : Ref) (pa pb : Pokemon) (r : Int) (ha : h[a]? = some pa) (hb : h[b]? = some pb)
    (hab : a ≠ b) (ra : pa.rating = r) (rb : pb.rating = r) :
    ∃ h1 qa qb, calculateELO pow h a b = some h1 ∧ h1[a]? = some qa ∧ h1[b]? = some qb ∧
      qa.rating = r + 16 ∧ qb.rating = r - 16 ∧ qa.rating - r = -(qb.rating - r) := by
  obtain ⟨h1, c, _, ea, eb, _⟩ := calculateELO_of_ne pow h a b pa pb ha hb hab
  have k : (K_FACTOR : F) = 32 := by simp [K_FACTOR]
  have e1 : Math_round ((pa.rating : F) +
      (K_FACTOR : F) * (1 - expectedScore pow pb.rating pa.rating)) = r + 16 := by
    rw [ra, rb, expectedScore_self pow h0, k]
    have : (r : F) + 32 * (1 - 1 / 2) = ((r + 16 : Int) : F) + 0 := by push_cast; ring
    rw [this]
    exact Math_round_int_add _ _ (by norm_num) (by norm_num)
  have e2 : Math_round ((pb.rating : F) +
      (K_FACTOR : F) * (0 - expectedScore pow pa.rating pb.rating)) = r - 16 := by
    rw [ra, rb, expectedScore_self pow h0, k]
    have : (r : F) + 32 * (0 - 1 / 2) = ((r - 16 : Int) : F) + 0 := by push_cast; ring
    rw [this]
    exact Math_round_int_add _ _ (by norm_num) (by norm_num)
  refine ⟨h1, _, _, c, ea, eb, e1, e2, ?_⟩
  show Math_round _ - r = -(Math_round _ - r)
  rw [e1, e2]
  ring

end UpdaterTheorems

/-- Witness of C2: the first of three fresh records beats the second. -/
theorem calculateELO_effect_witness :
    ∃ h1 qa qb, calculateELO powFloor trio 0 1 = some h1 ∧ h1.length = trio.length ∧
      h1[0]? = some qa ∧ h1[1]? = some qb ∧
      qa.wins = 0 + 1 ∧ qa.matches_ = 0 + 1 ∧ qa.losses = 0 ∧
      qb.losses = 0 + 1 ∧ qb.matches_ = 0 + 1 ∧ qb.wins = 0 ∧
      qa.id = 1 ∧ qa.name = "bulbasaur" ∧ qa.number = 1 ∧ qa.sprite = "" ∧
      qb.id = 4 ∧ qb.name = "charmander" ∧ qb.number = 4 ∧ qb.sprite = "" ∧
      ∀ k, k ≠ 0 → k ≠ 1 → h1[k]? = trio[k]? :=
  calculateELO_effect powFloor trio 0 1 (fetchPokemon 1 "bulbasaur" "")
    (fetchPokemon 4 "charmander" "") rfl rfl (by decide)

/-- Witness of C3: from 1500 and 1500 the ratings become 1516 and 1484. -/
theorem calculateELO_equal_ratings_witness :
    powFloor 10 0 = 1 ∧
    ∃ h1 qa qb, calculateELO powFloor trio 0 1 = some h1 ∧ h1[0]? = some qa ∧
      h1[1]? = some qb ∧ qa.rating = 1516 ∧ qb.rating = 1484 ∧
      qa.rating - 1500 = -(qb.rating - 1500) :=
  ⟨by decide, calculateELO_equal_ratings powFloor (by decide) trio 0 1
    (fetchPokemon 1 "bulbasaur" "") (fetchPokemon 4 "charmander" "") 1500 rfl rfl (by decide)
    rfl rfl⟩

end PokemonRanker

/-! ## Lemmas on the samplers -/

namespace PokemonRanker

theorem orderedInsert_perm {α : Type} (comparefn : Nat → α → α → ℚ) (a : α) (l : List α)
    (k : Nat) : (orderedInsert comparefn a l k).1.Perm (a :: l) := by
  induction l generalizing k with
  | nil => exact List.Perm.refl _
  | cons b l ih =>
    unfold orderedInsert
    split_ifs
    · exact List.Perm.refl _
    · exact ((ih (k + 1)).cons b).trans (List.Perm.swap a b l)

theorem arraySort_perm {α : Type} (comparefn : Nat → α → α → ℚ) (l : List α) (k : Nat) :
    (arraySort comparefn l k).1.Perm l := by
  induction l with
  | nil => exact List.Perm.refl _
  | cons a l ih =>
    unfold arraySort
    exact (orderedInsert_perm comparefn a _ _).trans (ih.cons a)

theorem shuffled_perm (rnd : Nat → ℚ) (pokemon : List Pokemon) :
    (shuffled rnd pokemon).Perm (List.range pokemon.length) :=
  arraySort_perm _ _ _

theorem shuffled_length (rnd : Nat → ℚ) (pokemon : List Pokemon) :
    (shuffled rnd pokemon).length = pokemon.length := by
  rw [(shuffled_perm rnd pokemon).length_eq, List.length_range]

theorem shuffled_nodup (rnd : Nat → ℚ) (pokemon : List Pokemon) :
    (shuffled rnd pokemon).Nodup :=
  (shuffled_perm rnd pokemon).nodup_iff.2 (List.nodup_range _)

theorem shuffled_mem (rnd : Nat → ℚ) (pokemon : List Pokemon) (r : Ref) :
    r ∈ shuffled rnd pokemon ↔ r < pokemon.length := by
  rw [(shuffled_perm rnd pokemon).mem_iff, List.mem_range]

theorem distinctIds_ne {pokemon : List Pokemon} (d : DistinctIds pokemon) {i j : Ref}
    {p q : Pokemon} (hi : pokemon[i]? = some p) (hj : pokemon[j]? = some q) (ne : i ≠ j) :
    p.id ≠ q.id := by
  intro e
  obtain ⟨hi1, rfl⟩ := List.getElem?_eq_some_iff.1 hi
  obtain ⟨hj1, rfl⟩ := List.getElem?_eq_some_iff.1 hj
  have d1 := List.nodup_iff_injective_get.1 d
  have : (⟨i, by simpa using hi1⟩ : Fin (pokemon.map Pokemon.id).length) =
      ⟨j, by simpa using hj1⟩ := d1 (by simpa using e)
  exact ne (Fin.mk.inj this)

theorem distinctIds_refs_nodup {pokemon : List Pokemon} (d : DistinctIds pokemon)
    {g : List Ref} (nd : g.Nodup) (hv : ∀ r ∈ g, r < pokemon.length) :
    (g.map (fun r => (pokemon[r]?).map Pokemon.id)).Nodup := by
  apply List.Nodup.map_on _ nd
  intro x hx y hy e
  by_contra ne
  have hx1 := hv x hx
  have hy1 := hv y hy
  rw [List.getElem?_eq_getElem hx1, List.getElem?_eq_getElem hy1] at e
  exact distinctIds_ne d (List.getElem?_eq_getElem hx1) (List.getElem?_eq_getElem hy1) ne
    (by simpa using e)

theorem orderedInsert_sorted (a : Pokemon) (l : List Pokemon) (k : Nat)
    (sl : l.Pairwise (fun x y => x.rating ≤ y.rating)) :
    (orderedInsert (fun _ x y => ((x.rating - y.rating : Int) : ℚ)) a l k).1.Pairwise
      (fun x y => x.rating ≤ y.rating) := by
  induction l generalizing k with
  | nil => simp [orderedInsert]
  | cons b l ih =>
    unfold orderedInsert
    have sb := List.pairwise_cons.1 sl
    split_ifs with c
    · have ab : a.rating ≤ b.rating := by
        have : ((a.rating - b.rating : Int) : ℚ) ≤ ((0 : Int) : ℚ) := by simpa using c
        have := Int.cast_le.1 this
        omega
      refine List.pairwise_cons.2 ⟨fun y hy => ?_, sl⟩
      rcases List.mem_cons.1 hy with rfl | hy
      · exact ab
      · exact le_trans ab (sb.1 y hy)
    · have ba : b.rating ≤ a.rating := by
        by_contra n
        apply c
        have : a.rating - b.rating ≤ 0 := by omega
        exact_mod_cast this
      refine List.pairwise_cons.2 ⟨fun y hy => ?_, ih (k + 1) sb.2⟩
      rcases List.mem_cons.1 ((orderedInsert_perm _ a l (k + 1)).mem_iff.1 hy) with rfl | hy
      · exact ba
      · exact sb.1 y hy

theorem sortedByRating_sorted (pokemon : List Pokemon) :
    (sortedByRating pokemon).Pairwise (fun x y => x.rating ≤ y.rating) := by
  unfold sortedByRating
  induction pokemon with
  | nil => simp [arraySort]
  | cons a l ih =>
    unfold arraySort
    exact orderedInsert_sorted a _ _ ih

theorem sortedByRating_perm (pokemon : List Pokemon) :
    (sortedByRating pokemon).Perm pokemon :=
  arraySort_perm _ _ _

end PokemonRanker

namespace PokemonRanker

theorem biasFactor_lt_iff (t : Nat) : biasFactor t < 1 / 5 ↔ t < 100 := by
  unfold biasFactor
  rw [min_lt_iff]
  constructor
  · rintro (h | h)
    · have : (t : ℚ) < 100 := by linarith
      exact_mod_cast this
    · norm_num at h
  · intro h
    left
    have : (t : ℚ) < 100 := by exact_mod_cast h
    linarith

theorem getRandomGroup_uniform (rnd : Nat → ℚ) (s : PokemonRanker) (count : Nat)
    (ht : s.totalComparisons < 100) :
    getRandomGroup rnd s count = .ok ((shuffled rnd s.pokemon).take count) := by
  unfold getRandomGroup getRandomGroupWith
  rw [if_pos ((biasFactor_lt_iff _).2 ht)]

theorem getRandomGroup_weighted (rnd : Nat → ℚ) (s : PokemonRanker) (count : Nat)
    (ht : 100 ≤ s.totalComparisons) :
    getRandomGroup rnd s count =
      match medianRating s.pokemon with
      | none => .error .TypeError
      | some m =>
        drawLoop weightedRandomSelect s.pokemon count 0
          (weightedPool m (biasFactor s.totalComparisons) s.pokemon) [] := by
  unfold getRandomGroup getRandomGroupWith
  rw [if_neg (fun h => absurd ((biasFactor_lt_iff _).1 h) (by omega))]

/-- The uniform branch of `getRandomGroup(count)` does what C5 says: below 100
comparisons, for a population with pairwise distinct ids and `count` at most its
size, the result holds exactly `count` records of the population, with pairwise
distinct ids, whatever the random source yields. -/
theorem getRandomGroup_uniform_distinct (rnd : Nat → ℚ) (s : PokemonRanker) (count : Nat)
    (d : DistinctIds s.pokemon) (hc : count ≤ s.pokemon.length)
    (ht : s.totalComparisons < 100) :
    ∃ g, getRandomGroup rnd s count = .ok g ∧ g.length = count ∧
      (∀ r ∈ g, r < s.pokemon.length) ∧ g.Nodup ∧
      (g.map (fun r => (s.pokemon[r]?).map Pokemon.id)).Nodup := by
  have nd : ((shuffled rnd s.pokemon).take count).Nodup :=
    (shuffled_nodup rnd s.pokemon).sublist (List.take_sublist _ _)
  have hv : ∀ r ∈ (shuffled rnd s.pokemon).take count, r < s.pokemon.length :=
    fun r hr => (shuffled_mem rnd s.pokemon r).1 (List.mem_of_mem_take hr)
  refine ⟨_, getRandomGroup_uniform rnd s count ht, ?_, hv, nd, distinctIds_refs_nodup d nd hv⟩
  rw [List.length_take, shuffled_length]
  omega

/-- C5, at the input where the code leaves it.  With 100 comparisons made and a
population of five fresh records, `getRandomGroup(5)` (the call `showNameTest`
makes) raises a `TypeError` for every outcome of the random source: the first
iteration of the loop calls `this.weightedRandomSelect`, which the class does not
define. -/
theorem getRandomGroup_weighted_raises (rnd : Nat → ℚ) :
    getRandomGroup rnd quintetSession 5 = .error .TypeError := by
  rw [getRandomGroup_weighted rnd quintetSession 5 (by decide)]
  have m : medianRating quintetSession.pokemon = some 1500 := by
    simp [medianRating, sortedByRating, arraySort, orderedInsert, quintetSession, quintet,
      fetchPokemon, INITIAL_RATING]
  rw [m]
  simp [drawLoop, weightedRandomSelect, weightedPool, quintetSession, quintet]

/-- C6. For a population of at least two records with pairwise distinct ids,
`getRandomPair()` returns, whatever the random comparator yields, a `left` and a
`right` that are records of the population and have different ids. -/
theorem getRandomPair_distinct (rnd : Nat → ℚ) (s : PokemonRanker)
    (hn : 2 ≤ s.pokemon.length) (d : DistinctIds s.pokemon) :
    ∃ i j pi pj, getRandomPair rnd s = { left := some i, right := some j } ∧
      s.pokemon[i]? = some pi ∧ s.pokemon[j]? = some pj ∧ pi.id ≠ pj.id := by
  have len := shuffled_length rnd s.pokemon
  have nd := shuffled_nodup rnd s.pokemon
  have mem := shuffled_mem rnd s.pokemon
  unfold getRandomPair
  match hs : shuffled rnd s.pokemon with
  | [] => rw [hs] at len; simp at len; omega
  | [_] => rw [hs] at len; simp at len; omega
  | i :: j :: rest =>
    rw [hs] at nd mem
    have hi : i < s.pokemon.length := (mem i).1 (by simp)
    have hj : j < s.pokemon.length := (mem j).1 (by simp)
    have ne : i ≠ j := by
      intro e
      subst e
      simp at nd
    exact ⟨i, j, s.pokemon[i], s.pokemon[j], by simp, List.getElem?_eq_getElem hi,
      List.getElem?_eq_getElem hj,
      distinctIds_ne d (List.getElem?_eq_getElem hi) (List.getElem?_eq_getElem hj) ne⟩

/-- Witness of C6 on three fresh records, with a random source that always
yields 0. -/
theorem getRandomPair_distinct_witness :
    2 ≤ (trioSession 0).pokemon.length ∧ DistinctIds (trioSession 0).pokemon ∧
    ∃ i j pi pj, getRandomPair (fun _ => 0) (trioSession 0) = { left := some i, right := some j } ∧
      (trioSession 0).pokemon[i]? = some pi ∧ (trioSession 0).pokemon[j]? = some pj ∧
      pi.id ≠ pj.id :=
  ⟨by decide, by unfold DistinctIds; decide,
    getRandomPair_distinct (fun _ => 0) (trioSession 0) (by decide) (by unfold DistinctIds; decide)⟩

end PokemonRanker

namespace PokemonRanker

theorem map_eraseIdx_eq {α β : Type} (f : α → β) (l : List α) (j : Nat) :
    (l.eraseIdx j).map f = (l.map f).eraseIdx j := by
  induction l generalizing j with
  | nil => rfl
  | cons a l ih =>
    cases j with
    | zero => rfl
    | succ j => simp [List.eraseIdx_cons_succ, ih]

theorem getElem_not_mem_eraseIdx (l : List Ref) (nd : l.Nodup) (j : Nat) (hj : j < l.length) :
    l[j] ∉ l.eraseIdx j := by
  intro m
  obtain ⟨i, ne, hi⟩ := List.mem_eraseIdx_iff_getElem?.1 m
  obtain ⟨hi1, e⟩ := List.getElem?_eq_some_iff.1 hi
  exact ne ((List.Nodup.getElem_inj_iff nd).1 e)

/-- The loop of `getRandomGroup` is sound once the missing method is supplied:
with any method that returns the `pokemon` of some entry of a non-empty pool, the
loop draws `todo` further records, all different from each other and from the
ones drawn before. -/
theorem drawLoop_distinct (sel : Selector) (pokemon : List Pokemon) (d : DistinctIds pokemon)
    (hsel : ∀ i pool, pool ≠ [] → ∃ e ∈ pool, sel i pool = some e.pokemon)
    (todo i : Nat) (pool : List WeightedEntry) (selected : List Ref)
    (np : (pool.map WeightedEntry.pokemon).Nodup)
    (vp : ∀ e ∈ pool, e.pokemon < pokemon.length)
    (ns : selected.Nodup) (vs : ∀ r ∈ selected, r < pokemon.length)
    (dj : ∀ r ∈ selected, r ∉ pool.map WeightedEntry.pokemon)
    (ht : todo ≤ pool.length) :
    ∃ g, drawLoop (some sel) pokemon todo i pool selected = .ok g ∧
      g.length = selected.length + todo ∧ g.Nodup ∧ ∀ r ∈ g, r < pokemon.length := by
  induction todo generalizing i pool selected with
  | zero => exact ⟨selected, rfl, rfl, ns, vs⟩
  | succ todo ih =>
    have pos : pool.length > 0 := by omega
    have ne : pool ≠ [] := List.ne_nil_of_length_pos pos
    obtain ⟨e, he, hc⟩ := hsel i pool ne
    have ve := vp e he
    simp only [drawLoop, if_pos pos, hc, List.getElem?_eq_getElem ve]
    have pe : (fun item : WeightedEntry =>
        (pokemon[item.pokemon]?).map Pokemon.id == some pokemon[e.pokemon].id) e = true := by
      simp [List.getElem?_eq_getElem ve]
    cases hf : pool.findIdx?
        (fun item => (pokemon[item.pokemon]?).map Pokemon.id == some pokemon[e.pokemon].id) with
    | none =>
      have := List.findIdx?_eq_none_iff.1 hf e he
      exact absurd (pe.symm.trans this) (by decide)
    | some j =>
      obtain ⟨hj, pj, _⟩ := List.findIdx?_eq_some_iff_getElem.1 hf
      have vj := vp pool[j] (List.getElem_mem hj)
      have same : pool[j].pokemon = e.pokemon := by
        by_contra c
        have := distinctIds_ne d (List.getElem?_eq_getElem vj) (List.getElem?_eq_getElem ve) c
        apply this
        simpa [List.getElem?_eq_getElem vj] using pj
      have hj1 : j < (pool.map WeightedEntry.pokemon).length := by simpa using hj
      have out : e.pokemon ∉ (pool.eraseIdx j).map WeightedEntry.pokemon := by
        rw [map_eraseIdx_eq, ← same]
        have := getElem_not_mem_eraseIdx _ np j hj1
        simpa using this
      obtain ⟨g, hg, lg, ng, vg⟩ := ih (i + 1) (pool.eraseIdx j) (selected ++ [e.pokemon])
        (by rw [map_eraseIdx_eq]; exact np.eraseIdx j)
        (fun x hx => vp x (List.mem_of_mem_eraseIdx hx))
        (by
          rw [List.nodup_append]
          refine ⟨ns, List.nodup_singleton _, ?_⟩
          intro a ha hb
          rw [List.mem_singleton] at hb
          subst hb
          exact dj _ ha (List.mem_map_of_mem _ he))
        (by
          intro r hr
          rcases List.mem_append.1 hr with h1 | h1
          · exact vs r h1
          · rw [List.mem_singleton] at h1
            subst h1
            exact ve)
        (by
          intro r hr
          rcases List.mem_append.1 hr with h1 | h1
          · intro m
            rw [map_eraseIdx_eq] at m
            exact dj r h1 (List.mem_of_mem_eraseIdx m)
          · rw [List.mem_singleton] at h1
            subst h1
            exact out)
        (by rw [List.length_eraseIdx_of_lt hj]; omega)
      refine ⟨g, hg, ?_, ng, vg⟩
      rw [lg, List.length_append, List.length_singleton]
      omega

end PokemonRanker

namespace PokemonRanker

theorem weightedPool_refs (m : Int) (bf : ℚ) (pokemon : List Pokemon) :
    (weightedPool m bf pokemon).map WeightedEntry.pokemon = List.range pokemon.length := by
  unfold weightedPool
  rw [List.map_map, ← List.enum_map_fst]
  rfl

theorem medianRating_isSome (pokemon : List Pokemon) (hn : 0 < pokemon.length) :
    ∃ m, medianRating pokemon = some m := by
  have len := (sortedByRating_perm pokemon).length_eq
  have h : (sortedByRating pokemon).length / 2 < (sortedByRating pokemon).length := by
    rw [len]
    exact Nat.div_lt_self hn (by decide)
  exact ⟨_, by simp only [medianRating, List.getElem?_eq_getElem h, Option.map_some']; rfl⟩

/-- What C5 asks of the weighted branch holds for every object that does have a
method `weightedRandomSelect` returning the `pokemon` of some entry of the pool
it is given: from 100 comparisons on, for a non-empty population with pairwise
distinct ids and `count` at most its size, `getRandomGroup(count)` returns exactly
`count` records of the population, with pairwise distinct ids. -/
theorem getRandomGroupWith_distinct (sel : Selector) (rnd : Nat → ℚ) (s : PokemonRanker)
    (count : Nat) (d : DistinctIds s.pokemon)
    (hsel : ∀ i pool, pool ≠ [] → ∃ e ∈ pool, sel i pool = some e.pokemon)
    (hn : 0 < s.pokemon.length) (hc : count ≤ s.pokemon.length)
    (ht : 100 ≤ s.totalComparisons) :
    ∃ g, getRandomGroupWith (some sel) rnd s count = .ok g ∧ g.length = count ∧
      (∀ r ∈ g, r < s.pokemon.length) ∧ g.Nodup ∧
      (g.map (fun r => (s.pokemon[r]?).map Pokemon.id)).Nodup := by
  obtain ⟨m, hm⟩ := medianRating_isSome s.pokemon hn
  have refs := weightedPool_refs m (biasFactor s.totalComparisons) s.pokemon
  obtain ⟨g, hg, lg, ng, vg⟩ := drawLoop_distinct sel s.pokemon d hsel count 0
    (weightedPool m (biasFactor s.totalComparisons) s.pokemon) []
    (by rw [refs]; exact List.nodup_range _)
    (by
      intro e he
      have : e.pokemon ∈ (weightedPool m (biasFactor s.totalComparisons) s.pokemon).map
          WeightedEntry.pokemon := List.mem_map_of_mem _ he
      rw [refs] at this
      exact List.mem_range.1 this)
    List.nodup_nil (fun r hr => by cases hr) (fun r hr => by cases hr)
    (by
      have := congrArg List.length refs
      rw [List.length_map, List.length_range] at this
      omega)
  refine ⟨g, ?_, by simpa using lg, vg, ng, distinctIds_refs_nodup d ng vg⟩
  unfold getRandomGroupWith
  rw [if_neg (fun h => absurd ((biasFactor_lt_iff _).1 h) (by omega)), hm]
  exact hg

end PokemonRanker

namespace PokemonRanker

theorem biasFactor_bounds (t : Nat) : 0 ≤ biasFactor t ∧ biasFactor t ≤ 1 := by
  unfold biasFactor
  refine ⟨le_min (div_nonneg (Nat.cast_nonneg t) (by norm_num)) (by norm_num), min_le_right _ _⟩

theorem biasFactor_ge_of_le (t : Nat) (ht : 100 ≤ t) : 1 / 5 ≤ biasFactor t := by
  by_contra h
  have := (biasFactor_lt_iff t).1 (not_le.1 h)
  omega

/-- C7. Bias schedule.  The bias factor used by `getRandomGroup` after `t`
comparisons is `min(t / 500, 1)`; it lies in `[0, 1]`, does not decrease when `t`
grows, is 1 exactly from `t = 500` on, and is below `0.2` exactly when `t < 100`;
`getRandomGroup` takes its uniform branch (a slice of the shuffled population)
exactly when `t < 100`, and its weighted branch with that bias factor otherwise. -/
theorem biasFactor_schedule (t : Nat) :
    biasFactor t = min ((t : ℚ) / 500) 1 ∧
    0 ≤ biasFactor t ∧ biasFactor t ≤ 1 ∧
    (∀ u, t ≤ u → biasFactor t ≤ biasFactor u) ∧
    (biasFactor t = 1 ↔ 500 ≤ t) ∧
    (biasFactor t < 1 / 5 ↔ t < 100) ∧
    ∀ (rnd : Nat → ℚ) (s : PokemonRanker) (count : Nat),
      getRandomGroup rnd { s with totalComparisons := t } count =
        if t < 100 then .ok ((shuffled rnd s.pokemon).take count)
        else
          match medianRating s.pokemon with
          | none => .error .TypeError
          | some m =>
            drawLoop weightedRandomSelect s.pokemon count 0
              (weightedPool m (min ((t : ℚ) / 500) 1) s.pokemon) [] := by
  refine ⟨rfl, (biasFactor_bounds t).1, (biasFactor_bounds t).2, ?_, ?_, biasFactor_lt_iff t, ?_⟩
  · intro u hu
    unfold biasFactor
    have : (t : ℚ) ≤ (u : ℚ) := by exact_mod_cast hu
    exact min_le_min (by linarith) le_rfl
  · unfold biasFactor
    rw [min_eq_right_iff]
    constructor
    · intro h
      have : (500 : ℚ) ≤ (t : ℚ) := by linarith
      exact_mod_cast this
    · intro h
      have : (500 : ℚ) ≤ (t : ℚ) := by exact_mod_cast h
      linarith
  · intro rnd s count
    by_cases ht : t < 100
    · rw [if_pos ht]
      exact getRandomGroup_uniform rnd { s with totalComparisons := t } count ht
    · rw [if_neg ht]
      exact getRandomGroup_weighted rnd { s with totalComparisons := t } count (by
        show 100 ≤ t
        omega)

/-- Witness of C7: the factor is `99 / 500` after 99 comparisons and `1 / 5`
after 100, does not decrease between them, and is 1 after 500. -/
theorem biasFactor_schedule_witness :
    (99 ≤ 100 ∧ biasFactor 99 ≤ biasFactor 100) ∧ biasFactor 99 < 1 / 5 ∧
    ¬ biasFactor 100 < 1 / 5 ∧ biasFactor 500 = 1 :=
  ⟨⟨by decide, (biasFactor_schedule 99).2.2.2.1 100 (by decide)⟩,
    (biasFactor_schedule 99).2.2.2.2.2.1.2 (by decide),
    fun h => absurd ((biasFactor_schedule 100).2.2.2.2.2.1.1 h) (by decide),
    (biasFactor_schedule 500).2.2.2.2.1.2 (by decide)⟩

theorem weight_antitone (m : Int) (bf : ℚ) (hb : 0 ≤ bf) (r1 r2 : Int) (h : r1 ≤ r2) :
    weight m bf r2 ≤ weight m bf r1 := by
  unfold weight
  have c : ((m - r2 : Int) : ℚ) ≤ ((m - r1 : Int) : ℚ) := by
    exact_mod_cast (by omega : m - r2 ≤ m - r1)
  have i : 1 + ((m - r2 : Int) : ℚ) / 200 * bf ≤ 1 + ((m - r1 : Int) : ℚ) / 200 * bf := by
    have : ((m - r2 : Int) : ℚ) / 200 ≤ ((m - r1 : Int) : ℚ) / 200 := by linarith
    nlinarith
  have mx := max_le_max (le_refl (1 / 10 : ℚ)) i
  have : max (1 / 10 : ℚ) (1 + ((m - r2 : Int) : ℚ) / 200 * bf) * bf ≤
      max (1 / 10 : ℚ) (1 + ((m - r1 : Int) : ℚ) / 200 * bf) * bf :=
    mul_le_mul_of_nonneg_right mx hb
  simp only
  linarith

theorem weight_below_median (m : Int) (bf : ℚ) (hb : 0 < bf) (r1 r2 : Int) (h1 : r1 < m)
    (h2 : m ≤ r2) : weight m bf r2 < weight m bf r1 := by
  unfold weight
  have c1 : (0 : ℚ) < ((m - r1 : Int) : ℚ) := by exact_mod_cast (by omega : 0 < m - r1)
  have c2 : ((m - r2 : Int) : ℚ) ≤ 0 := by exact_mod_cast (by omega : m - r2 ≤ 0)
  have i1 : 1 < 1 + ((m - r1 : Int) : ℚ) / 200 * bf := by
    have : 0 < ((m - r1 : Int) : ℚ) / 200 * bf := mul_pos (by linarith) hb
    linarith
  have i2 : 1 + ((m - r2 : Int) : ℚ) / 200 * bf ≤ 1 := by
    have : ((m - r2 : Int) : ℚ) / 200 * bf ≤ 0 :=
      mul_nonpos_of_nonpos_of_nonneg (by linarith) hb.le
    linarith
  have m1 : 1 < max (1 / 10 : ℚ) (1 + ((m - r1 : Int) : ℚ) / 200 * bf) :=
    lt_max_of_lt_right i1
  have m2 : max (1 / 10 : ℚ) (1 + ((m - r2 : Int) : ℚ) / 200 * bf) ≤ 1 :=
    max_le (by norm_num) i2
  have : max (1 / 10 : ℚ) (1 + ((m - r2 : Int) : ℚ) / 200 * bf) * bf <
      max (1 / 10 : ℚ) (1 + ((m - r1 : Int) : ℚ) / 200 * bf) * bf :=
    mul_lt_mul_of_pos_right (lt_of_le_of_lt m2 m1) hb
  simp only
  linarith

/-- C8. In the weighted branch of `getRandomGroup` (at least 100 comparisons, so
the bias factor lies in `[0.2, 1]`), with `medianRating` the rating at index
`floor(n / 2)` of the population sorted ascending by rating, the weight of every
record is `1 + max(0.1, 1 + ((medianRating - rating) / 200) * biasFactor) *
biasFactor * 3`; the weight does not increase with the rating, and a record rated
strictly below `medianRating` has a strictly larger weight than a record rated
at or above it. -/
theorem weightedPool_favours_low_rated (pokemon : List Pokemon) (t : Nat) (m : Int)
    (ht : 100 ≤ t) (hm : medianRating pokemon = some m) :
    (1 / 5 ≤ biasFactor t ∧ biasFactor t ≤ 1) ∧
    ((sortedByRating pokemon).Perm pokemon ∧
      (sortedByRating pokemon).Pairwise (fun x y => x.rating ≤ y.rating) ∧
      ((sortedByRating pokemon)[pokemon.length / 2]?).map Pokemon.rating = some m) ∧
    (∀ (i : Ref) (p : Pokemon), pokemon[i]? = some p →
      (weightedPool m (biasFactor t) pokemon)[i]? =
        some ({ pokemon := i,
                weight := 1 + max (1 / 10) (1 + (((m : ℚ) - (p.rating : ℚ)) / 200) * biasFactor t) *
                  biasFactor t * 3 } : WeightedEntry)) ∧
    (∀ r1 r2 : Int, r1 ≤ r2 → weight m (biasFactor t) r2 ≤ weight m (biasFactor t) r1) ∧
    (∀ r1 r2 : Int, r1 < m → m ≤ r2 →
      weight m (biasFactor t) r2 < weight m (biasFactor t) r1) := by
  have b := biasFactor_ge_of_le t ht
  refine ⟨⟨b, (biasFactor_bounds t).2⟩, ⟨sortedByRating_perm pokemon,
    sortedByRating_sorted pokemon, ?_⟩, ?_, ?_, ?_⟩
  · rw [← hm, medianRating, (sortedByRating_perm pokemon).length_eq]
  · intro i p hp
    simp [weightedPool, List.getElem?_enum, hp, weight]
  · intro r1 r2 h
    exact weight_antitone m _ (by linarith) _ _ h
  · intro r1 r2 h1 h2
    exact weight_below_median m _ (by linarith) _ _ h1 h2

end PokemonRanker

namespace PokemonRanker

/-- Witness of C8: ratings 1400, 1500 and 3000 after 250 comparisons.  The median
rating is 1500 and the record rated 1400 outweighs the one rated 1500, which in
turn weighs no less than the one rated 3000. -/
theorem weightedPool_favours_low_rated_witness :
    100 ≤ 250 ∧ medianRating ratedTrio = some 1500 ∧
    weight 1500 (biasFactor 250) 1500 < weight 1500 (biasFactor 250) 1400 ∧
    weight 1500 (biasFactor 250) 3000 ≤ weight 1500 (biasFactor 250) 1500 := by
  have hm : medianRating ratedTrio = some 1500 := by
    simp [medianRating, sortedByRating, arraySort, orderedInsert, ratedTrio, fetchPokemon,
      INITIAL_RATING]
  have t := weightedPool_favours_low_rated ratedTrio 250 1500 (by decide) hm
  refine ⟨by decide, hm, ?_, ?_⟩
  · exact t.2.2.2.2 1400 1500 (by decide) (by decide)
  · exact t.2.2.2.1 1500 3000 (by decide)

/-- C9, as the code has it.  Neither sampler checks the size of the population.
On a population of fewer than 2 records `getRandomPair()` returns a pair whose
`right` is `undefined`, its `left` being the only record, or `undefined` too when
there is none; on a population of fewer than `count` records, below 100
comparisons, `getRandomGroup(count)` returns a shorter group that holds every
record of the population exactly once. -/
theorem samplers_small_population (rnd : Nat → ℚ) (s : PokemonRanker) :
    (s.pokemon.length < 2 →
      getRandomPair rnd s =
        { left := if s.pokemon.length = 1 then some 0 else none, right := none }) ∧
    (∀ count, s.pokemon.length < count → s.totalComparisons < 100 →
      ∃ g, getRandomGroup rnd s count = .ok g ∧ g.length = s.pokemon.length ∧
        g.Perm (List.range s.pokemon.length)) := by
  constructor
  · intro hn
    have p := shuffled_perm rnd s.pokemon
    unfold getRandomPair
    have c : s.pokemon.length = 0 ∨ s.pokemon.length = 1 := by omega
    rcases c with c | c
    · rw [c] at p
      simp only [List.range_zero, List.perm_nil] at p
      simp [p, c]
    · rw [c] at p
      have p1 : shuffled rnd s.pokemon = [0] := List.perm_singleton.1 p
      simp [p1, c]
  · intro count hc ht
    refine ⟨_, getRandomGroup_uniform rnd s count ht, ?_, ?_⟩
    · rw [List.length_take, shuffled_length]
      omega
    · rw [List.take_of_length_le (by rw [shuffled_length]; omega)]
      exact shuffled_perm rnd s.pokemon

/-- Witness of the amended C9: one record for the pair, three records and a
request for five for the group. -/
theorem samplers_small_population_witness :
    (soloSession.pokemon.length < 2 ∧
      getRandomPair (fun _ => 0) soloSession = { left := some 0, right := none }) ∧
    ((trioSession 0).pokemon.length < 5 ∧ (trioSession 0).totalComparisons < 100 ∧
      ∃ g, getRandomGroup (fun _ => 0) (trioSession 0) 5 = .ok g ∧ g.length = 3 ∧
        g.Perm (List.range 3)) :=
  ⟨⟨by decide, (samplers_small_population (fun _ => 0) soloSession).1 (by decide)⟩,
    ⟨by decide, by decide,
      (samplers_small_population (fun _ => 0) (trioSession 0)).2 5 (by decide) (by decide)⟩⟩

/-- Counterexample to C9 as stated: with a single record `getRandomPair()` returns
a pair (its `right` is `undefined`) instead of failing, and with three records and
no comparison made `getRandomGroup(5)` returns a group of three instead of
failing. -/
theorem samplers_do_not_fail :
    getRandomPair (fun _ => 0) soloSession = { left := some 0, right := none } ∧
    getRandomGroup (fun _ => 0) (trioSession 0) 5 = .ok [0, 1, 2] := by
  constructor
  · simp [getRandomPair, shuffled, allRefs, soloSession, arraySort, orderedInsert, List.range,
      List.range.loop]
  · rw [getRandomGroup_uniform _ _ _ (by decide)]
    simp [shuffled, allRefs, trioSession, trio, arraySort, orderedInsert, List.range,
      List.range.loop]

end PokemonRanker

/-! ## Lemmas on the session methods -/

namespace PokemonRanker

theorem getRandomGroup_weighted_error (rnd : Nat → ℚ) (s : PokemonRanker) (count : Nat)
    (ht : 100 ≤ s.totalComparisons) (hc : 0 < count) :
    getRandomGroup rnd s count = .error .TypeError := by
  rw [getRandomGroup_weighted rnd s count ht]
  cases hm : medianRating s.pokemon with
  | none => rfl
  | some m =>
    cases hp : s.pokemon with
    | nil =>
      rw [hp] at hm
      simp [medianRating, sortedByRating, arraySort] at hm
    | cons p ps =>
      obtain ⟨c, rfl⟩ : ∃ c, count = c + 1 := ⟨count - 1, by omega⟩
      simp [drawLoop, weightedRandomSelect, weightedPool]

theorem showNameTest_records (rnd : Nat → ℚ) (s : PokemonRanker) :
    (showNameTest rnd s).state.pokemon = s.pokemon ∧
    (showNameTest rnd s).state.totalComparisons = s.totalComparisons := by
  unfold showNameTest
  cases getRandomGroup rnd s 5 with
  | error e => exact ⟨rfl, rfl⟩
  | ok g => exact ⟨rfl, rfl⟩

theorem showNameTest_error (rnd : Nat → ℚ) (s : PokemonRanker) :
    (showNameTest rnd s).error = none ↔ s.totalComparisons < 100 := by
  unfold showNameTest
  by_cases ht : s.totalComparisons < 100
  · rw [getRandomGroup_uniform rnd s 5 ht]
    simp only [ht, iff_true]
    rw [if_pos]
    rw [List.all_eq_true]
    intro r hr
    have := (shuffled_mem rnd s.pokemon r).1 (List.mem_of_mem_take hr)
    simp [List.getElem?_eq_getElem this]
  · rw [getRandomGroup_weighted_error rnd s 5 (by omega) (by decide)]
    simp [ht]

theorem showBattle_records (rnd : Nat → ℚ) (s : PokemonRanker) :
    (showBattle rnd s).state.pokemon = s.pokemon ∧
    (showBattle rnd s).state.totalComparisons = s.totalComparisons := by
  unfold showBattle
  split <;> exact ⟨rfl, rfl⟩

theorem showBattle_error (rnd : Nat → ℚ) (s : PokemonRanker) :
    (showBattle rnd s).error = none ↔ 2 ≤ s.pokemon.length := by
  have len := shuffled_length rnd s.pokemon
  have mem := shuffled_mem rnd s.pokemon
  unfold showBattle getRandomPair
  match hs : shuffled rnd s.pokemon with
  | [] =>
    rw [hs] at len
    simp at len
    simp [← len]
  | [i] =>
    rw [hs] at len
    simp at len
    simp [← len]
  | i :: j :: rest =>
    rw [hs] at len mem
    have hi : i < s.pokemon.length := (mem i).1 (by simp)
    have hj : j < s.pokemon.length := (mem j).1 (by simp)
    have : 2 ≤ s.pokemon.length := by rw [← len]; simp
    simp [List.getElem?_eq_getElem hi, List.getElem?_eq_getElem hj, this]

section SessionLemmas

variable {F : Type} [LinearOrderedField F] [FloorRing F]

theorem Math_round_self_update (pow : F → F → F) (h0 : pow 10 0 = 1) (r : Int) :
    Math_round
      (((Math_round ((r : F) + (K_FACTOR : F) * (1 - expectedScore pow r r)) : Int) : F) +
        (K_FACTOR : F) * (0 - expectedScore pow r r)) = r := by
  have k : (K_FACTOR : F) = 32 := by simp [K_FACTOR]
  have e1 : Math_round ((r : F) + (K_FACTOR : F) * (1 - expectedScore pow r r)) = r + 16 := by
    rw [expectedScore_self pow h0, k]
    have : (r : F) + 32 * (1 - 1 / 2) = ((r + 16 : Int) : F) + 0 := by push_cast; ring
    rw [this]
    exact Math_round_int_add _ _ (by norm_num) (by norm_num)
  rw [e1, expectedScore_self pow h0, k]
  have : ((r + 16 : Int) : F) + 32 * (0 - 1 / 2) = ((r : Int) : F) + 0 := by push_cast; ring
  rw [this]
  exact Math_round_int_add _ _ (by norm_num) (by norm_num)

theorem selectPokemon_of_some (pow : F → F → F) (rnd : Nat → ℚ) (s : PokemonRanker)
    (winner loser : Ref) (h : List Pokemon)
    (c : calculateELO pow s.pokemon winner loser = some h) :
    selectPokemon pow rnd s winner loser =
      showBattle rnd { s with pokemon := h, totalComparisons := s.totalComparisons + 1 } := by
  simp only [selectPokemon, c]

theorem forEachLoser_gain (pow : F → F → F) (w : Ref) (us : List Ref) (h : List Pokemon) :
    ∃ dw dl, Gain dw dl h (forEachLoser pow w us h).1 := by
  induction us generalizing h with
  | nil => exact ⟨_, _, gain_refl h⟩
  | cons u rest ih =>
    simp only [forEachLoser]
    cases c : calculateELO pow h w u with
    | none => exact ⟨_, _, gain_refl h⟩
    | some h1 =>
      have v := calculateELO_isSome pow h w u h1 c
      obtain ⟨h2, c2, g⟩ := calculateELO_gain pow h w u v.1 v.2
      rw [c] at c2
      cases c2
      obtain ⟨dw, dl, g2⟩ := ih h1
      exact ⟨_, _, gain_trans g g2⟩

theorem forEachLoser_ok (pow : F → F → F) (w : Ref) (us : List Ref) (h h1 : List Pokemon)
    (a : applyEdges pow (us.map (fun l => (w, l))) h = some h1) :
    forEachLoser pow w us h = (h1, none) := by
  induction us generalizing h with
  | nil =>
    simp only [List.map_nil, applyEdges, Option.some.injEq] at a
    subst a
    rfl
  | cons u rest ih =>
    simp only [List.map_cons, applyEdges] at a
    simp only [forEachLoser]
    cases c : calculateELO pow h w u with
    | none => simp [c] at a
    | some h2 =>
      simp only [c] at a ⊢
      exact ih h2 a

theorem forEachMember_gain (pow : F → F → F) (selected : Finset Nat) (group todo : List Ref)
    (h : List Pokemon) :
    ∃ dw dl, Gain dw dl h (forEachMember pow selected group todo h).1 := by
  induction todo generalizing h with
  | nil => exact ⟨_, _, gain_refl h⟩
  | cons r todo ih =>
    simp only [forEachMember]
    cases hr : h[r]? with
    | none => exact ⟨_, _, gain_refl h⟩
    | some p =>
      simp only []
      by_cases hs : p.id ∈ selected
      · rw [if_pos hs]
        cases hu : unselectedOf selected h group with
        | none => exact ⟨_, _, gain_refl h⟩
        | some us =>
          simp only []
          obtain ⟨dw, dl, g⟩ := forEachLoser_gain pow r us h
          rcases hf : forEachLoser pow r us h with ⟨h1, _ | e⟩
          · rw [hf] at g
            obtain ⟨dw1, dl1, g1⟩ := ih h1
            exact ⟨_, _, gain_trans g g1⟩
          · rw [hf] at g
            exact ⟨_, _, g⟩
      · rw [if_neg hs]
        exact ih h

theorem forEachMember_ok (pow : F → F → F) (selected : Finset Nat) (group todo : List Ref)
    (h hfin : List Pokemon) (hG : ∀ r ∈ group, r < h.length) (hT : ∀ r ∈ todo, r < h.length)
    (a : applyEdges pow
      ((selectedRefs selected h todo).product (unselectedRefs selected h group)) h = some hfin) :
    forEachMember pow selected group todo h = (hfin, none) := by
  induction todo generalizing h with
  | nil =>
    simp only [selectedRefs, List.filter_nil] at a
    have : applyEdges pow ([] : List (Ref × Ref)) h = some hfin := a
    simp only [applyEdges, Option.some.injEq] at this
    subst this
    rfl
  | cons r todo ih =>
    have hr : r < h.length := hT r (List.mem_cons_self _ _)
    have hT1 : ∀ x ∈ todo, x < h.length := fun x hx => hT x (List.mem_cons_of_mem _ hx)
    simp only [forEachMember, List.getElem?_eq_getElem hr]
    by_cases hs : h[r].id ∈ selected
    · have sr : isSelected selected h r = true := by
        simp [isSelected, List.getElem?_eq_getElem hr, hs]
      rw [if_pos hs, unselectedOf_eq selected h group hG]
      simp only []
      obtain ⟨h1, c, g⟩ := applyEdges_gain pow
        ((unselectedRefs selected h group).map (fun l => (r, l))) h (by
          intro e he
          obtain ⟨l, hl, rfl⟩ := List.mem_map.1 he
          exact ⟨hr, hG l (List.mem_of_mem_filter hl)⟩)
      have s1 : selectedRefs selected h1 todo = selectedRefs selected h todo := by
        unfold selectedRefs
        exact List.filter_congr (fun x _ => gain_isSelected g selected x)
      have s2 : unselectedRefs selected h1 group = unselectedRefs selected h group := by
        unfold unselectedRefs
        exact List.filter_congr (fun x _ => by rw [gain_isSelected g selected x])
      have s3 : selectedRefs selected h (r :: todo) = r :: selectedRefs selected h todo := by
        simp [selectedRefs, List.filter_cons, sr]
      rw [s3, product_cons_eq, applyEdges_append pow _ _ h h1 c] at a
      rw [forEachLoser_ok pow r _ h h1 c]
      simp only []
      exact ih h1 (fun x hx => g.1 ▸ hG x hx) (fun x hx => g.1 ▸ hT1 x hx) (by rw [s1, s2]; exact a)
    · have sr : isSelected selected h r = false := by
        simp [isSelected, List.getElem?_eq_getElem hr, hs]
      have s3 : selectedRefs selected h (r :: todo) = selectedRefs selected h todo := by
        simp [selectedRefs, List.filter_cons, sr]
      rw [if_neg hs]
      exact ih h hG hT1 (by rw [← s3]; exact a)

theorem submitNameTest_of_ok (pow : F → F → F) (rnd : Nat → ℚ) (s : PokemonRanker)
    (h1 : List Pokemon)
    (c : forEachMember pow s.selectedNameTestIds s.currentNameTestGroup
      s.currentNameTestGroup s.pokemon = (h1, none)) :
    submitNameTest pow rnd s =
      showNameTest rnd
        { s with pokemon := h1,
                 totalComparisons := s.totalComparisons + s.currentNameTestGroup.length } := by
  simp only [submitNameTest, c]

theorem submitNameTest_gain (pow : F → F → F) (rnd : Nat → ℚ) (s : PokemonRanker) :
    ∃ dw dl, Gain dw dl s.pokemon (submitNameTest pow rnd s).state.pokemon := by
  obtain ⟨dw, dl, g⟩ := forEachMember_gain pow s.selectedNameTestIds s.currentNameTestGroup
    s.currentNameTestGroup s.pokemon
  unfold submitNameTest
  rcases hf : forEachMember pow s.selectedNameTestIds s.currentNameTestGroup
    s.currentNameTestGroup s.pokemon with ⟨h1, _ | e⟩
  · rw [hf] at g
    simp only []
    rw [(showNameTest_records rnd _).1]
    exact ⟨_, _, g⟩
  · rw [hf] at g
    exact ⟨_, _, g⟩

end SessionLemmas

end PokemonRanker

/-! ## The rounds -/

namespace PokemonRanker

section SessionTheorems

variable {F : Type} [LinearOrderedField F] [FloorRing F]

/-- C1. Invariant I1 (`matches == wins + losses` for every record) is kept by
`calculateELO`, by `selectPokemon` and by `submitNameTest`, for every winner and
loser, every pending group, every selection and every outcome of the random
source: when every record satisfies I1 before the call, every record satisfies it
in the state the call leaves behind, whether the call returns or raises.
`calculateELO` returns on references to records of the population. -/
theorem invariant_I1_preserved (pow : F → F → F) (s : PokemonRanker) (hI : I1 s.pokemon) :
    (∀ winner loser, winner < s.pokemon.length → loser < s.pokemon.length →
      ∃ h1, calculateELO pow s.pokemon winner loser = some h1) ∧
    (∀ winner loser h1, calculateELO pow s.pokemon winner loser = some h1 → I1 h1) ∧
    (∀ rnd winner loser, I1 (selectPokemon pow rnd s winner loser).state.pokemon) ∧
    (∀ rnd, I1 (submitNameTest pow rnd s).state.pokemon) := by
  have key : ∀ winner loser h1, calculateELO pow s.pokemon winner loser = some h1 → I1 h1 := by
    intro winner loser h1 c
    have v := calculateELO_isSome pow s.pokemon winner loser h1 c
    obtain ⟨h2, c2, g⟩ := calculateELO_gain pow s.pokemon winner loser v.1 v.2
    rw [c] at c2
    cases c2
    exact gain_I1 g hI
  refine ⟨?_, key, ?_, ?_⟩
  · intro winner loser hw hl
    obtain ⟨h1, c, _⟩ := calculateELO_gain pow s.pokemon winner loser hw hl
    exact ⟨h1, c⟩
  · intro rnd winner loser
    cases c : calculateELO pow s.pokemon winner loser with
    | none =>
      have : selectPokemon pow rnd s winner loser = { state := s, error := some .TypeError } := by
        simp only [selectPokemon, c]
      rw [this]
      exact hI
    | some h1 =>
      rw [selectPokemon_of_some pow rnd s winner loser h1 c, (showBattle_records rnd _).1]
      exact key winner loser h1 c
  · intro rnd
    obtain ⟨dw, dl, g⟩ := submitNameTest_gain pow rnd s
    exact gain_I1 g hI

/-- C4. Group round.  For a pending group of records of the population with
pairwise distinct ids, any selection and any outcome of the random source, the
state `submitNameTest()` leaves behind is this: its rating updates were
`calculateELO(s, u)` for the pairs of a selected member `s` and an unselected
member `u` of the group, each pair exactly once; every selected member has gained
as many wins as there are unselected members and no loss, every unselected member
as many losses as there are selected members and no win; records outside the
group are untouched; `totalComparisons` has grown by the size of the group; and
when all or none of the group is selected no record has changed.  The call
returns when the new `totalComparisons` is below 100, and otherwise raises a
`TypeError` from its closing `showNameTest()`, after these writes. -/
theorem submitNameTest_round (pow : F → F → F) (rnd : Nat → ℚ) (s : PokemonRanker)
    (hG : ∀ r ∈ s.currentNameTestGroup, r < s.pokemon.length)
    (hid : (s.currentNameTestGroup.map (fun r => (s.pokemon[r]?).map Pokemon.id)).Nodup) :
    applyEdges pow
        ((selectedRefs s.selectedNameTestIds s.pokemon s.currentNameTestGroup).product
          (unselectedRefs s.selectedNameTestIds s.pokemon s.currentNameTestGroup))
        s.pokemon = some (submitNameTest pow rnd s).state.pokemon ∧
      ((selectedRefs s.selectedNameTestIds s.pokemon s.currentNameTestGroup).product
          (unselectedRefs s.selectedNameTestIds s.pokemon s.currentNameTestGroup)).Nodup ∧
      (∀ w l, (w, l) ∈
          (selectedRefs s.selectedNameTestIds s.pokemon s.currentNameTestGroup).product
            (unselectedRefs s.selectedNameTestIds s.pokemon s.currentNameTestGroup) ↔
          (w ∈ s.currentNameTestGroup ∧ isSelected s.selectedNameTestIds s.pokemon w = true) ∧
          (l ∈ s.currentNameTestGroup ∧ isSelected s.selectedNameTestIds s.pokemon l = false)) ∧
      (submitNameTest pow rnd s).state.totalComparisons =
        s.totalComparisons + s.currentNameTestGroup.length ∧
      (submitNameTest pow rnd s).state.pokemon.length = s.pokemon.length ∧
      (∀ r ∈ s.currentNameTestGroup, ∀ p, s.pokemon[r]? = some p →
        ∃ q, (submitNameTest pow rnd s).state.pokemon[r]? = some q ∧
          (p.id ∈ s.selectedNameTestIds →
            q.wins = p.wins +
              (unselectedRefs s.selectedNameTestIds s.pokemon s.currentNameTestGroup).length ∧
            q.losses = p.losses) ∧
          (p.id ∉ s.selectedNameTestIds →
            q.wins = p.wins ∧
            q.losses = p.losses +
              (selectedRefs s.selectedNameTestIds s.pokemon s.currentNameTestGroup).length)) ∧
      (∀ k, k ∉ s.currentNameTestGroup →
        (submitNameTest pow rnd s).state.pokemon[k]? = s.pokemon[k]?) ∧
      ((selectedRefs s.selectedNameTestIds s.pokemon s.currentNameTestGroup = [] ∨
          unselectedRefs s.selectedNameTestIds s.pokemon s.currentNameTestGroup = []) →
        (submitNameTest pow rnd s).state.pokemon = s.pokemon) ∧
      ((submitNameTest pow rnd s).error = none ↔
        s.totalComparisons + s.currentNameTestGroup.length < 100) := by
  have nd : s.currentNameTestGroup.Nodup := List.Nodup.of_map _ hid
  obtain ⟨h1, c, g⟩ := applyEdges_gain pow
    ((selectedRefs s.selectedNameTestIds s.pokemon s.currentNameTestGroup).product
      (unselectedRefs s.selectedNameTestIds s.pokemon s.currentNameTestGroup)) s.pokemon (by
      intro e he
      obtain ⟨a, b⟩ := e
      rw [List.pair_mem_product] at he
      exact ⟨hG a (List.mem_of_mem_filter he.1), hG b (List.mem_of_mem_filter he.2)⟩)
  have e := submitNameTest_of_ok pow rnd s h1
    (forEachMember_ok pow s.selectedNameTestIds s.currentNameTestGroup
      s.currentNameTestGroup s.pokemon h1 hG hG c)
  have ep : (submitNameTest pow rnd s).state.pokemon = h1 := by
    rw [e, (showNameTest_records rnd _).1]
  have et : (submitNameTest pow rnd s).state.totalComparisons =
      s.totalComparisons + s.currentNameTestGroup.length := by
    rw [e, (showNameTest_records rnd _).2]
  rw [ep]
  refine ⟨c, ?_, ?_, et, g.1, ?_, ?_, ?_, ?_⟩
  · exact List.Nodup.product (nd.filter _) (nd.filter _)
  · intro w l
    rw [List.pair_mem_product]
    simp [selectedRefs, unselectedRefs, List.mem_filter]
  · intro r hr p hp
    obtain ⟨q, hq, _, _, _, _, ew, el, _, _⟩ := g.2 r p hp
    rw [winsIn_product] at ew
    rw [lossesIn_product] at el
    have sel : isSelected s.selectedNameTestIds s.pokemon r =
        decide (p.id ∈ s.selectedNameTestIds) := by
      simp [isSelected, hp]
    refine ⟨q, hq, fun hs => ?_, fun hs => ?_⟩
    · have t : isSelected s.selectedNameTestIds s.pokemon r = true := by rw [sel]; simpa using hs
      have c1 : (selectedRefs s.selectedNameTestIds s.pokemon
          s.currentNameTestGroup).count r = 1 := by
        unfold selectedRefs
        rw [List.count_filter t]
        exact List.count_eq_one_of_mem nd hr
      have c2 : (unselectedRefs s.selectedNameTestIds s.pokemon
          s.currentNameTestGroup).count r = 0 := by
        apply List.count_eq_zero_of_not_mem
        simp [unselectedRefs, List.mem_filter, t]
      rw [c1] at ew
      rw [c2] at el
      constructor <;> omega
    · have t : isSelected s.selectedNameTestIds s.pokemon r = false := by rw [sel]; simpa using hs
      have c1 : (selectedRefs s.selectedNameTestIds s.pokemon
          s.currentNameTestGroup).count r = 0 := by
        apply List.count_eq_zero_of_not_mem
        simp [selectedRefs, List.mem_filter, t]
      have c2 : (unselectedRefs s.selectedNameTestIds s.pokemon
          s.currentNameTestGroup).count r = 1 := by
        unfold unselectedRefs
        rw [List.count_filter (by simp [t])]
        exact List.count_eq_one_of_mem nd hr
      rw [c1] at ew
      rw [c2] at el
      constructor <;> omega
  · intro k hk
    cases hp : s.pokemon[k]? with
    | none => exact gain_getElem?_none g hp
    | some p =>
      obtain ⟨q, hq, _, _, _, _, _, _, _, same⟩ := g.2 k p hp
      rw [winsIn_product, lossesIn_product] at same
      have c1 : (selectedRefs s.selectedNameTestIds s.pokemon
          s.currentNameTestGroup).count k = 0 :=
        List.count_eq_zero_of_not_mem (fun m => hk (List.mem_of_mem_filter m))
      have c2 : (unselectedRefs s.selectedNameTestIds s.pokemon
          s.currentNameTestGroup).count k = 0 :=
        List.count_eq_zero_of_not_mem (fun m => hk (List.mem_of_mem_filter m))
      rw [hq, same (by rw [c1]; simp) (by rw [c2]; simp)]
  · intro hz
    have z : (selectedRefs s.selectedNameTestIds s.pokemon s.currentNameTestGroup).product
        (unselectedRefs s.selectedNameTestIds s.pokemon s.currentNameTestGroup) = [] := by
      rcases hz with hz | hz
      · rw [hz]; rfl
      · rw [hz]; exact List.product_nil _
    rw [z] at c
    simp only [applyEdges, Option.some.injEq] at c
    exact c.symm
  · rw [e, showNameTest_error]

/-- C10, as the code has it.  A judgment with winner == loser is not rejected and
is not a no-op.  For every record `x` of the population `calculateELO(x, x)`
returns, and it and `selectPokemon(x, x)` leave `x.rating` as it was (the rating
goes up by 16 and down by 16 again), add 1 to `x.wins`, 1 to `x.losses` and 2 to
`x.matches` and leave every other record alone; `selectPokemon(x, x)` also adds 1
to `totalComparisons`.  `selectPokemon(x, x)` then returns when the population has
at least 2 records, and otherwise raises a `TypeError` from its closing
`showBattle()`, after these writes. -/
theorem selectPokemon_same_record (pow : F → F → F) (h0 : pow 10 0 = 1) (rnd : Nat → ℚ)
    (s : PokemonRanker) (x : Ref) (px : Pokemon) (hx : s.pokemon[x]? = some px) :
    ∃ qx, calculateELO pow s.pokemon x x = some (selectPokemon pow rnd s x x).state.pokemon ∧
      (selectPokemon pow rnd s x x).state.pokemon[x]? = some qx ∧
      qx.rating = px.rating ∧ qx.wins = px.wins + 1 ∧ qx.losses = px.losses + 1 ∧
      qx.matches_ = px.matches_ + 2 ∧
      qx.id = px.id ∧ qx.name = px.name ∧ qx.number = px.number ∧ qx.sprite = px.sprite ∧
      (∀ k, k ≠ x → (selectPokemon pow rnd s x x).state.pokemon[k]? = s.pokemon[k]?) ∧
      (selectPokemon pow rnd s x x).state.totalComparisons = s.totalComparisons + 1 ∧
      ((selectPokemon pow rnd s x x).error = none ↔ 2 ≤ s.pokemon.length) := by
  obtain ⟨h1, c, len, ex, rest⟩ := calculateELO_self pow s.pokemon x px hx
  have e := selectPokemon_of_some pow rnd s x x h1 c
  have ep : (selectPokemon pow rnd s x x).state.pokemon = h1 := by
    rw [e, (showBattle_records rnd _).1]
  rw [ep]
  refine ⟨_, c, ex, Math_round_self_update pow h0 px.rating, rfl, rfl, rfl, rfl, rfl, rfl, rfl,
    rest, ?_, ?_⟩
  · rw [e, (showBattle_records rnd _).2]
  · rw [e, showBattle_error]
    exact ⟨fun h => len ▸ h, fun h => len.symm ▸ h⟩

end SessionTheorems

end PokemonRanker

namespace PokemonRanker

/-- Witness of C1: the three fresh records satisfy I1 and still do after a round
that ends in a `TypeError` (97 comparisons before it, 100 after), and the single
fresh record still does after `selectPokemon` with itself. -/
theorem invariant_I1_preserved_witness :
    I1 (trioSession 97).pokemon ∧
    I1 (submitNameTest powFloor (fun _ => 0) (trioSession 97)).state.pokemon ∧
    I1 soloSession.pokemon ∧
    I1 (selectPokemon powFloor (fun _ => 0) soloSession 0 0).state.pokemon :=
  have hI : I1 (trioSession 97).pokemon := by unfold I1; decide
  have hJ : I1 soloSession.pokemon := by unfold I1; decide
  ⟨hI, (invariant_I1_preserved powFloor (trioSession 97) hI).2.2.2 (fun _ => 0),
    hJ, (invariant_I1_preserved powFloor soloSession hJ).2.2.1 (fun _ => 0) 0 0⟩

/-- Witness of C4: the group of the three fresh records A, B, C with A selected.
After 10 comparisons the round returns: A has two wins, B and C one loss each and
`totalComparisons` is 13.  After 97 comparisons the same writes are made,
`totalComparisons` is 100, and the call raises. -/
theorem submitNameTest_round_witness :
    (∀ r ∈ (trioSession 10).currentNameTestGroup, r < (trioSession 10).pokemon.length) ∧
    ((trioSession 10).currentNameTestGroup.map
      (fun r => ((trioSession 10).pokemon[r]?).map Pokemon.id)).Nodup ∧
    (∃ a b c,
      (submitNameTest powFloor (fun _ => 0) (trioSession 10)).state.pokemon[0]? = some a ∧
      (submitNameTest powFloor (fun _ => 0) (trioSession 10)).state.pokemon[1]? = some b ∧
      (submitNameTest powFloor (fun _ => 0) (trioSession 10)).state.pokemon[2]? = some c ∧
      a.wins = 2 ∧ a.losses = 0 ∧ b.wins = 0 ∧ b.losses = 1 ∧ c.wins = 0 ∧ c.losses = 1) ∧
    (submitNameTest powFloor (fun _ => 0) (trioSession 10)).state.totalComparisons = 10 + 3 ∧
    (submitNameTest powFloor (fun _ => 0) (trioSession 10)).error = none ∧
    (∃ a, (submitNameTest powFloor (fun _ => 0) (trioSession 97)).state.pokemon[0]? = some a ∧
      a.wins = 2 ∧ a.losses = 0) ∧
    (submitNameTest powFloor (fun _ => 0) (trioSession 97)).state.totalComparisons = 97 + 3 ∧
    (submitNameTest powFloor (fun _ => 0) (trioSession 97)).error ≠ none := by
  obtain ⟨_, _, _, t, _, r, _, _, e⟩ :=
    submitNameTest_round powFloor (fun _ => 0) (trioSession 10) (by decide) (by decide)
  obtain ⟨_, _, _, t1, _, r1, _, _, e1⟩ :=
    submitNameTest_round powFloor (fun _ => 0) (trioSession 97) (by decide) (by decide)
  obtain ⟨a, ha, a1, _⟩ := r 0 (by decide) (fetchPokemon 1 "bulbasaur" "") rfl
  obtain ⟨b, hb, _, b2⟩ := r 1 (by decide) (fetchPokemon 4 "charmander" "") rfl
  obtain ⟨c, hc, _, c2⟩ := r 2 (by decide) (fetchPokemon 7 "squirtle" "") rfl
  obtain ⟨a9, ha9, a91, _⟩ := r1 0 (by decide) (fetchPokemon 1 "bulbasaur" "") rfl
  exact ⟨by decide, by decide,
    ⟨a, b, c, ha, hb, hc, (a1 (by decide)).1, (a1 (by decide)).2,
      (b2 (by decide)).1, (b2 (by decide)).2, (c2 (by decide)).1, (c2 (by decide)).2⟩,
    t, e.2 (by decide),
    ⟨a9, ha9, (a91 (by decide)).1, (a91 (by decide)).2⟩, t1,
    fun h => absurd (e1.1 h) (by decide)⟩

/-- Witness of the amended C10.  On the first of three fresh records
`selectPokemon(x, x)` double-counts and returns; on a population of one record it
double-counts and raises. -/
theorem selectPokemon_same_record_witness :
    powFloor 10 0 = 1 ∧ (trioSession 0).pokemon[0]? = some (fetchPokemon 1 "bulbasaur" "") ∧
    (∃ qx, (selectPokemon powFloor (fun _ => 0) (trioSession 0) 0 0).state.pokemon[0]? = some qx ∧
      qx.rating = 1500 ∧ qx.wins = 1 ∧ qx.losses = 1 ∧ qx.matches_ = 2) ∧
    (selectPokemon powFloor (fun _ => 0) (trioSession 0) 0 0).state.totalComparisons = 1 ∧
    (selectPokemon powFloor (fun _ => 0) (trioSession 0) 0 0).error = none ∧
    (∃ qx, (selectPokemon powFloor (fun _ => 0) soloSession 0 0).state.pokemon[0]? = some qx ∧
      qx.rating = 1500 ∧ qx.wins = 1 ∧ qx.losses = 1 ∧ qx.matches_ = 2) ∧
    (selectPokemon powFloor (fun _ => 0) soloSession 0 0).state.totalComparisons = 1 ∧
    (selectPokemon powFloor (fun _ => 0) soloSession 0 0).error ≠ none := by
  obtain ⟨qx, _, e0, r, w, l, m, _, _, _, _, _, t, e⟩ :=
    selectPokemon_same_record powFloor (by decide) (fun _ => 0) (trioSession 0) 0
      (fetchPokemon 1 "bulbasaur" "") rfl
  obtain ⟨qy, _, f0, r1, w1, l1, m1, _, _, _, _, _, t1, e1⟩ :=
    selectPokemon_same_record powFloor (by decide) (fun _ => 0) soloSession 0
      (fetchPokemon 1 "bulbasaur" "") rfl
  exact ⟨by decide, rfl, ⟨qx, e0, r, w, l, m⟩, t, e.2 (by decide), ⟨qy, f0, r1, w1, l1, m1⟩, t1,
    fun h => absurd (e1.1 h) (by decide)⟩

/-- Counterexample to C10 as stated: on a fresh record `calculateELO(x, x)` does
not fail and counts a win, a loss and two matches for `x`, and
`selectPokemon(x, x)` leaves these records behind and moves `totalComparisons`
from 0 to 1. -/
theorem same_record_double_counts :
    calculateELO powFloor trio 0 0 =
      some [{ fetchPokemon 1 "bulbasaur" "" with wins := 1, losses := 1, matches_ := 2 },
        fetchPokemon 4 "charmander" "", fetchPokemon 7 "squirtle" ""] ∧
    (fetchPokemon 1 "bulbasaur" "").wins = 0 ∧ (fetchPokemon 1 "bulbasaur" "").losses = 0 ∧
    (fetchPokemon 1 "bulbasaur" "").matches_ = 0 ∧
    (selectPokemon powFloor (fun _ => 0) (trioSession 0) 0 0).state.pokemon =
      [{ fetchPokemon 1 "bulbasaur" "" with wins := 1, losses := 1, matches_ := 2 },
        fetchPokemon 4 "charmander" "", fetchPokemon 7 "squirtle" ""] ∧
    (selectPokemon powFloor (fun _ => 0) (trioSession 0) 0 0).state.totalComparisons = 1 ∧
    (trioSession 0).totalComparisons = 0 ∧
    (selectPokemon powFloor (fun _ => 0) (trioSession 0) 0 0).error = none := by
  have c : calculateELO powFloor trio 0 0 =
      some [{ fetchPokemon 1 "bulbasaur" "" with wins := 1, losses := 1, matches_ := 2 },
        fetchPokemon 4 "charmander" "", fetchPokemon 7 "squirtle" ""] := by
    simp [calculateELO, trio, fetchPokemon, expectedScore, powFloor, Math_round, K_FACTOR,
      INITIAL_RATING, List.modify, List.modifyTailIdx, List.modifyHead]
    norm_num
  have e := selectPokemon_of_some powFloor (fun _ => 0) (trioSession 0) 0 0 _ c
  refine ⟨c, rfl, rfl, rfl, ?_, ?_, rfl, ?_⟩
  · rw [e, (showBattle_records _ _).1]
  · rw [e, (showBattle_records _ _).2]
    rfl
  · rw [e, showBattle_error]
    decide

end PokemonRanker


/-! ## Conservation of the ratings over the real numbers -/

namespace PokemonRanker

theorem ten_rpow_pow (d : ℤ) : ((10 : ℝ) ^ ((d : ℝ) / 400)) ^ (400 : ℕ) = (10 : ℝ) ^ d := by
  rw [← Real.rpow_natCast, ← Real.rpow_mul (by norm_num), ← Real.rpow_intCast]
  congr 1
  push_cast
  ring

theorem odd_pow_ne_even (x y : ℤ) (n : ℕ) (hy : y % 2 = 1) :
    x ^ 400 * 10 ^ (n + 1) ≠ y ^ 400 := by
  intro e
  have ev : Even (y ^ 400) := by
    rw [← e, Int.even_mul]
    exact Or.inr (Int.even_pow.2 ⟨by decide, by omega⟩)
  rw [Int.even_pow] at ev
  have := Int.even_iff.1 ev.1
  omega

theorem gain_ne_half_integer (d k : ℤ) :
    (32 : ℝ) / (1 + (10 : ℝ) ^ ((d : ℝ) / 400)) ≠ (k : ℝ) + 1 / 2 := by
  intro h
  have qpos : 0 < (10 : ℝ) ^ ((d : ℝ) / 400) := Real.rpow_pos_of_pos (by norm_num) _
  have q400 := ten_rpow_pow d
  generalize (10 : ℝ) ^ ((d : ℝ) / 400) = q at h qpos q400
  have h1 : ((2 * k + 1 : ℤ) : ℝ) * q = ((63 - 2 * k : ℤ) : ℝ) := by
    have ne : (1 + q) ≠ 0 := by positivity
    rw [div_eq_iff ne] at h
    push_cast
    linarith
  have h2 : ((2 * k + 1 : ℤ) : ℝ) ^ 400 * (10 : ℝ) ^ d = ((63 - 2 * k : ℤ) : ℝ) ^ 400 := by
    rw [← q400, ← mul_pow, h1]
  have o1 : (2 * k + 1) % 2 = 1 := by omega
  have o2 : (63 - 2 * k) % 2 = 1 := by omega
  cases d with
  | ofNat n =>
    cases n with
    | zero =>
      have q1 : q ^ 400 = 1 := by simpa using q400
      have : q = 1 := by
        rcases (pow_eq_one_iff_of_nonneg qpos.le (by decide)).1 q1 with h3
        exact h3
      rw [this, mul_one] at h1
      have : (2 * k + 1 : ℤ) = 63 - 2 * k := by exact_mod_cast h1
      omega
    | succ n =>
      have : (2 * k + 1) ^ 400 * (10 : ℤ) ^ (n + 1) = (63 - 2 * k) ^ 400 := by
        have := h2
        simp only [Int.ofNat_eq_coe, zpow_natCast] at this
        exact_mod_cast this
      exact odd_pow_ne_even _ _ n o2 this
  | negSucc n =>
    have : (63 - 2 * k) ^ 400 * (10 : ℤ) ^ (n + 1) = (2 * k + 1) ^ 400 := by
      have := h2
      rw [zpow_negSucc] at this
      have p : (0 : ℝ) < (10 : ℝ) ^ (n + 1) := by positivity
      have := (mul_inv_eq_iff_eq_mul₀ p.ne').1 this
      exact_mod_cast this.symm
    exact odd_pow_ne_even _ _ n o1 this

end PokemonRanker

namespace PokemonRanker

theorem sum_set_int (l : List Int) (n : Nat) (hn : n < l.length) (x : Int) :
    (l.set n x).sum = l.sum - l[n] + x := by
  induction l generalizing n with
  | nil => simp at hn
  | cons y l ih =>
    cases n with
    | zero => simp; ring
    | succ n =>
      have hn1 : n < l.length := by simpa using hn
      simp only [List.set_cons_succ, List.sum_cons, List.getElem_cons_succ, ih n hn1]
      ring

theorem sum_ratings_of_two (h h1 : List Pokemon) (a b : Ref) (pa pb qa qb : Pokemon)
    (ha : h[a]? = some pa) (hb : h[b]? = some pb) (hab : a ≠ b)
    (ha1 : h1[a]? = some qa) (hb1 : h1[b]? = some qb)
    (rest : ∀ k, k ≠ a → k ≠ b → h1[k]? = h[k]?)
    (e : qa.rating + qb.rating = pa.rating + pb.rating) :
    (h1.map Pokemon.rating).sum = (h.map Pokemon.rating).sum := by
  obtain ⟨la, ea⟩ := List.getElem?_eq_some_iff.1 ha
  obtain ⟨lb, eb⟩ := List.getElem?_eq_some_iff.1 hb
  have s : h1 = (h.set a qa).set b qb := by
    apply List.ext_getElem?
    intro k
    rcases eq_or_ne k b with rfl | kb
    · rw [hb1, List.getElem?_set_self (by simpa using lb)]
    · rw [List.getElem?_set_ne (Ne.symm kb)]
      rcases eq_or_ne k a with rfl | ka
      · rw [ha1, List.getElem?_set_self la]
      · rw [List.getElem?_set_ne (Ne.symm ka)]
        exact rest k ka kb
  have la1 : a < (h.map Pokemon.rating).length := by simpa using la
  have lb1 : b < ((h.map Pokemon.rating).set a qa.rating).length := by simpa using lb
  rw [s, List.map_set, List.map_set, sum_set_int _ b lb1, sum_set_int _ a la1]
  have g1 : ((h.map Pokemon.rating).set a qa.rating)[b] = pb.rating := by
    rw [List.getElem_set_ne hab]
    simp [eb]
  have g2 : (h.map Pokemon.rating)[a] = pa.rating := by simp [ea]
  rw [g1, g2]
  omega

section RoundingLemmas

variable {F : Type} [LinearOrderedField F] [FloorRing F]

theorem Math_round_eq_ceil (x : F) (hx : ∀ k : ℤ, x ≠ (k : F) + 1 / 2) :
    Math_round x = ⌈x - 1 / 2⌉ := by
  unfold Math_round
  symm
  rw [Int.ceil_eq_iff]
  have l := Int.floor_le (x + 1 / 2)
  have u := Int.lt_floor_add_one (x + 1 / 2)
  have ne : ((⌊x + 1 / 2⌋ : ℤ) : F) ≠ x + 1 / 2 := by
    intro e
    apply hx (⌊x + 1 / 2⌋ - 1)
    push_cast
    linarith
  have lt := lt_of_le_of_ne l ne
  constructor <;> linarith

theorem Math_round_pair (g : F) (hg : ∀ k : ℤ, g ≠ (k : F) + 1 / 2) (ra rb : ℤ) :
    Math_round ((ra : F) + g) + Math_round ((rb : F) - g) = ra + rb := by
  have l := Int.floor_le (g + 1 / 2)
  have u := Int.lt_floor_add_one (g + 1 / 2)
  have ne : ((⌊g + 1 / 2⌋ : ℤ) : F) ≠ g + 1 / 2 := by
    intro e
    apply hg (⌊g + 1 / 2⌋ - 1)
    push_cast
    linarith
  have lt := lt_of_le_of_ne l ne
  have e1 : Math_round ((ra : F) + g) = ra + ⌊g + 1 / 2⌋ := by
    unfold Math_round
    rw [Int.floor_eq_iff]
    push_cast
    constructor <;> linarith
  have e2 : Math_round ((rb : F) - g) = rb - ⌊g + 1 / 2⌋ := by
    unfold Math_round
    rw [Int.floor_eq_iff]
    push_cast
    constructor <;> linarith
  rw [e1, e2]
  ring

end RoundingLemmas

theorem expectedScore_rpow (other self : Int) :
    (K_FACTOR : ℝ) * (1 - expectedScore (fun x y : ℝ => x ^ y) other self) =
      32 / (1 + (10 : ℝ) ^ (((self - other : ℤ) : ℝ) / 400)) ∧
    (K_FACTOR : ℝ) * (0 - expectedScore (fun x y : ℝ => x ^ y) self other) =
      -(32 / (1 + (10 : ℝ) ^ (((self - other : ℤ) : ℝ) / 400))) := by
  have k : (K_FACTOR : ℝ) = 32 := by simp [K_FACTOR]
  have qpos : 0 < (10 : ℝ) ^ (((self - other : ℤ) : ℝ) / 400) :=
    Real.rpow_pos_of_pos (by norm_num) _
  have inv : (10 : ℝ) ^ (((other : ℝ) - (self : ℝ)) / 400) =
      ((10 : ℝ) ^ (((self - other : ℤ) : ℝ) / 400))⁻¹ := by
    rw [← Real.rpow_neg (by norm_num)]
    congr 1
    push_cast
    ring
  have same : (10 : ℝ) ^ (((self : ℝ) - (other : ℝ)) / 400) =
      (10 : ℝ) ^ (((self - other : ℤ) : ℝ) / 400) := by
    congr 1
    push_cast
    ring
  unfold expectedScore
  simp only [inv, same, k]
  generalize (10 : ℝ) ^ (((self - other : ℤ) : ℝ) / 400) = q at qpos
  constructor
  · field_simp
    ring
  · field_simp

end PokemonRanker

namespace PokemonRanker

/-- C11. Rating conservation for arbitrary priors, with the formula read over the
real numbers (`Math.pow` the real power, `Math.round` rounding a tie upwards).
For two distinct records `a` (winner) and `b` (loser) with any integer ratings,
`calculateELO(a, b)` runs to completion and the gain of the winner is the loss of
the loser, so the two ratings add up to what they added up to before; neither
value handed to `Math.round` is a half-integer, so rounding a tie downwards would
give the same two ratings; and the sum of all ratings of the population is
unchanged. -/
theorem calculateELO_conserves_ratings (h : List Pokemon) (a b : Ref) (pa pb : Pokemon)
    (ha : h[a]? = some pa) (hb : h[b]? = some pb) (hab : a ≠ b) :
    ∃ h1 qa qb, calculateELO (fun x y : ℝ => x ^ y) h a b = some h1 ∧
      h1[a]? = some qa ∧ h1[b]? = some qb ∧
      qa.rating + qb.rating = pa.rating + pb.rating ∧
      qa.rating - pa.rating = pb.rating - qb.rating ∧
      (∀ k : ℤ, (pa.rating : ℝ) + (K_FACTOR : ℝ) *
          (1 - expectedScore (fun x y : ℝ => x ^ y) pb.rating pa.rating) ≠ (k : ℝ) + 1 / 2) ∧
      (∀ k : ℤ, (pb.rating : ℝ) + (K_FACTOR : ℝ) *
          (0 - expectedScore (fun x y : ℝ => x ^ y) pa.rating pb.rating) ≠ (k : ℝ) + 1 / 2) ∧
      qa.rating = ⌈(pa.rating : ℝ) + (K_FACTOR : ℝ) *
          (1 - expectedScore (fun x y : ℝ => x ^ y) pb.rating pa.rating) - 1 / 2⌉ ∧
      qb.rating = ⌈(pb.rating : ℝ) + (K_FACTOR : ℝ) *
          (0 - expectedScore (fun x y : ℝ => x ^ y) pa.rating pb.rating) - 1 / 2⌉ ∧
      (h1.map Pokemon.rating).sum = (h.map Pokemon.rating).sum := by
  obtain ⟨h1, c, _, ea, eb, rest⟩ :=
    calculateELO_of_ne (fun x y : ℝ => x ^ y) h a b pa pb ha hb hab
  obtain ⟨gw, gl⟩ := expectedScore_rpow pb.rating pa.rating
  have hg := gain_ne_half_integer (pa.rating - pb.rating)
  generalize (32 : ℝ) / (1 + (10 : ℝ) ^ (((pa.rating - pb.rating : ℤ) : ℝ) / 400)) = g
    at gw gl hg
  have nw : ∀ k : ℤ, (pa.rating : ℝ) + (K_FACTOR : ℝ) *
      (1 - expectedScore (fun x y : ℝ => x ^ y) pb.rating pa.rating) ≠ (k : ℝ) + 1 / 2 := by
    intro k e
    rw [gw] at e
    apply hg (k - pa.rating)
    push_cast
    linarith
  have nl : ∀ k : ℤ, (pb.rating : ℝ) + (K_FACTOR : ℝ) *
      (0 - expectedScore (fun x y : ℝ => x ^ y) pa.rating pb.rating) ≠ (k : ℝ) + 1 / 2 := by
    intro k e
    rw [gl] at e
    apply hg (pb.rating - k - 1)
    push_cast
    linarith
  have sum : Math_round ((pa.rating : ℝ) + (K_FACTOR : ℝ) *
        (1 - expectedScore (fun x y : ℝ => x ^ y) pb.rating pa.rating)) +
      Math_round ((pb.rating : ℝ) + (K_FACTOR : ℝ) *
        (0 - expectedScore (fun x y : ℝ => x ^ y) pa.rating pb.rating)) =
      pa.rating + pb.rating := by
    rw [gw, gl, ← sub_eq_add_neg]
    exact Math_round_pair _ hg _ _
  refine ⟨h1, _, _, c, ea, eb, sum, ?_, nw, nl, Math_round_eq_ceil _ nw,
    Math_round_eq_ceil _ nl, sum_ratings_of_two h h1 a b pa pb _ _ ha hb hab ea eb rest sum⟩
  have := sum
  show Math_round _ - pa.rating = pb.rating - Math_round _
  omega

/-- Witness of C11: the record rated 1400 beats the record rated 1500. -/
theorem calculateELO_conserves_ratings_witness :
    ratedTrio[0]? = some { fetchPokemon 1 "bulbasaur" "" with rating := 1400 } ∧
    ratedTrio[1]? = some (fetchPokemon 4 "charmander" "") ∧ (0 : Ref) ≠ 1 ∧
    ∃ h1 qa qb, calculateELO (fun x y : ℝ => x ^ y) ratedTrio 0 1 = some h1 ∧
      h1[0]? = some qa ∧ h1[1]? = some qb ∧ qa.rating + qb.rating = 1400 + 1500 ∧
      (h1.map Pokemon.rating).sum = 1400 + 1500 + 3000 := by
  refine ⟨rfl, rfl, by decide, ?_⟩
  obtain ⟨h1, qa, qb, c, ea, eb, s, _, _, _, _, _, t⟩ :=
    calculateELO_conserves_ratings ratedTrio 0 1
      { fetchPokemon 1 "bulbasaur" "" with rating := 1400 } (fetchPokemon 4 "charmander" "")
      rfl rfl (by decide)
  exact ⟨h1, qa, qb, c, ea, eb, s, by rw [t]; rfl⟩

end PokemonRanker
